import Mathlib

/-!
Verification development for the Stream Agency daemon
(`stream_agency.py`): a shallow embedding of the scheduler,
usage-accounting and billing pipeline, together with theorems settling
the specification claims about it.

Modelling conventions:
* Python strings are embedded as `List Char` (`PyStr`); Python slicing
  `s[:n]` is `List.take n`, `in`-substring tests are `List.IsInfix`.
* JSON-decoded field values are `JVal`; Python truthiness and
  `isinstance(value, int)` (which also accepts `bool`) are modelled
  explicitly.
* Floats (`reward_per_window`, `fee_due_claw`) are embedded as `ℚ`;
  none of the claims depends on float rounding.
* All `now_ms()` readings inside one tick are modelled by the tick's
  `ts_ms` (the code takes a fresh clock reading when logging rows; no
  claim depends on that sub-tick drift).
* The outside world (stream endpoint, epoch oracle, billing
  subprocess, PRNG jitter draw) is an explicit environment passed into
  each tick.
-/

namespace StreamAgency

/-- Python strings, embedded as character lists so that slicing and
length are directly computable. -/
abbrev PyStr := List Char

/-- A JSON-decoded Python value, as far as the daemon inspects one.
`jother` stands for any other decoded value (float, list, object): never
an `int` for `isinstance`, with the given truthiness. -/
inductive JVal
  | jnull
  | jbool (b : Bool)
  | jint (n : Int)
  | jstr (s : PyStr)
  | jother (truthy : Bool)
deriving DecidableEq, Repr

/-- Python truthiness of a decoded value. -/
def JVal.truthy : JVal → Bool
  | .jnull => false
  | .jbool b => b
  | .jint n => n != 0
  | .jstr s => !s.isEmpty
  | .jother t => t

/-- Python `isinstance(value, int)`: true for `int` and for `bool`
(`bool` is a subclass of `int`). -/
def JVal.isInt : JVal → Bool
  | .jint _ => true
  | .jbool _ => true
  | _ => false

/-- The integer a value stands for when `isinstance(value, int)` holds
(`True` is `1`, `False` is `0`). -/
def JVal.toInt : JVal → Int
  | .jint n => n
  | .jbool b => if b then 1 else 0
  | _ => 0

/-- A parsed JSON object: association list of fields. -/
abbrev JObj := List (String × JVal)

/-- `dict.get`: the first binding of the key, if any. -/
def JObj.get (o : JObj) (k : String) : Option JVal :=
  (o.find? (fun p => p.1 == k)).map (fun p => p.2)

/-- Python truthiness of a variable that is either a decoded value or
`None`. -/
def pyTruthyOpt : Option JVal → Bool
  | none => false
  | some v => v.truthy

/-- Python `a or b` on such variables: `b` whenever `a` is falsy. -/
def pyOrOpt (a b : Option JVal) : Option JVal :=
  if pyTruthyOpt a then a else b

/-- Python truthiness of `end_stream_ms : int | None`: `None` and `0`
are falsy. -/
def pyTruthyInt : Option Int → Bool
  | none => false
  | some n => n != 0

/-- `_extract_end_stream_ms`: `value = parsed.get("end_stream") or
parsed.get("can_stream_again_at")`, returned when
`isinstance(value, int)`.  `if not parsed` covers both `None` and the
empty object. -/
def extract_end_stream_ms (parsed : Option JObj) : Option Int :=
  match parsed with
  | none => none
  | some o =>
    if o.isEmpty then none
    else
      match pyOrOpt (o.get "end_stream") (o.get "can_stream_again_at") with
      | some v => if v.isInt then some v.toInt else none
      | none => none

/-- Lower-casing a Python string (`str.lower`). -/
def pyLower (s : PyStr) : PyStr := s.map Char.toLower

/-- `"already streaming" in body.lower()`. -/
def bodyHasAlreadyStreaming (body : PyStr) : Bool :=
  decide (List.IsInfix ("already streaming".data) (pyLower body))

/-- One parsed stream-endpoint response, as produced by `_post_stream`. -/
structure StreamResponse where
  ok : Bool
  status_code : Int
  body : PyStr
  parsed : Option JObj
deriving DecidableEq, Repr

/-- The `reason` string recorded for an attempt: `"ok"`, or `"error"`,
overridden to `"already_streaming"` on a 403 whose body mentions it. -/
def classify_reason (r : StreamResponse) : String :=
  if !r.ok && r.status_code == 403 && bodyHasAlreadyStreaming r.body then
    "already_streaming"
  else if r.ok then "ok" else "error"

/-- The scheduler's per-response outcome, following the branch structure
of `process_due_agents`: success requires `ok` and a *truthy*
`end_stream_ms`; re-sync requires the `already_streaming` reason and a
truthy `end_stream_ms`; everything else backs off. -/
inductive Outcome
  | armSuccess (end_ms : Int)
  | reSync (end_ms : Int)
  | backoff
deriving DecidableEq, Repr

/-- Whether an outcome is an arm success. -/
def Outcome.isArmSuccess : Outcome → Bool
  | .armSuccess _ => true
  | _ => false

/-- Classification of a response, mirroring the `if ok and
end_stream_ms` / `if reason == "already_streaming" and end_stream_ms`
ladder. -/
def classify_outcome (r : StreamResponse) : Outcome :=
  if r.ok && pyTruthyInt (extract_end_stream_ms r.parsed) then
    .armSuccess ((extract_end_stream_ms r.parsed).getD 0)
  else if classify_reason r == "already_streaming"
      && pyTruthyInt (extract_end_stream_ms r.parsed) then
    .reSync ((extract_end_stream_ms r.parsed).getD 0)
  else .backoff

/-- `_next_planned_attempt`, with the random draw
`random.randint(0, max(0, jitter_seconds) * 1000)` supplied by the
environment as `jitter_ms`. -/
def next_planned_attempt (end_stream_ms : Int) (lead_seconds : Int) (jitter_ms : Int) : Int :=
  end_stream_ms - lead_seconds * 1000 + jitter_ms

/-- `_fee_for_success`. -/
def fee_for_success (reward_per_window : ℚ) (fee_bps : Int) : ℚ :=
  reward_per_window * ((fee_bps : ℚ) / 10000)

/-- `_schedule_retry`: delays 30/60/120 seconds for steps 0/1/2 and 180
seconds from step 3 on; the retry step always advances by one. -/
def schedule_retry (ts_ms : Int) (retry_step : Nat) : Int × Nat :=
  let delays : List Int := [30, 60, 120]
  let idx := min retry_step (delays.length - 1)
  let delay := if retry_step < delays.length then delays.getD idx 0 else 180
  (ts_ms + delay * 1000, retry_step + 1)

/-- Runtime configuration (the fields of `Config` that the core logic
reads; pure transport settings such as URLs live in the environment). -/
structure Config where
  lead_seconds : Int
  jitter_seconds : Int
  reward_per_window : ℚ
  billing_enabled : Bool
  intake_probe_stream : Bool

/-- A row of the `agents` table. -/
structure Agent where
  id : Int
  address : PyStr
  stream_signature : PyStr
  fee_bps : Int
  status : String
  expected_end_ms : Option Int
  next_attempt_ms : Option Int
  retry_step : Nat
  success_count : Nat
  failure_count : Nat
  fee_due_claw : ℚ
  last_success_ms : Option Int
  last_error : Option PyStr
  created_ms : Int
  updated_ms : Int
deriving DecidableEq, Repr

/-- A row of the append-only `attempts` table. -/
structure AttemptRow where
  agent_id : Int
  attempted_ms : Int
  ok : Bool
  status_code : Int
  reason : String
  end_stream_ms : Option Int
  response_body : PyStr
deriving DecidableEq, Repr

/-- A row of the `usage_windows` table, keyed by `(agent_id, epoch)`. -/
structure UsageRow where
  agent_id : Int
  epoch : Int
  windows : Nat
  billed : Bool
  billed_at_ms : Option Int
  last_error : Option PyStr
deriving DecidableEq, Repr

/-- A row of the append-only `billing_attempts` table. -/
structure BillingAttempt where
  agent_id : Int
  epoch : Int
  windows : Nat
  attempted_ms : Int
  ok : Bool
  return_code : Int
  stdout : PyStr
  stderr : PyStr
deriving DecidableEq, Repr

/-- The persistent store: the four tables of `init_db`. -/
structure SysState where
  agents : List Agent
  attempts : List AttemptRow
  usage_windows : List UsageRow
  billing_attempts : List BillingAttempt
deriving DecidableEq, Repr

/-- One store operation, for reasoning about transaction boundaries.
`commit` marks a `conn.commit()`; `billCall` marks the external
`billEpoch` subprocess invocation of `_run_bill_epoch`. -/
inductive DbOp
  | insertAttempt (agent_id : Int)
  | updateAgent (agent_id : Int)
  | upsertUsage (agent_id : Int) (epoch : Int)
  | insertBillingAttempt (agent_id : Int) (epoch : Int)
  | updateUsage (agent_id : Int) (epoch : Int)
  | billCall (address : PyStr) (epoch : Int) (windows : Nat)
  | commit
deriving DecidableEq, Repr

/-- Whether a usage row has key `(a, e)` — the `WHERE agent_id = ? AND
epoch = ?` condition and the `(agent_id, epoch)` conflict target. -/
def usageKeyIs (a e : Int) (r : UsageRow) : Bool :=
  r.agent_id == a && r.epoch == e

/-- SQL `UPDATE usage_windows SET ... WHERE agent_id = ? AND epoch = ?`:
rewrite every row with the key. -/
def updateUsageRows (a e : Int) (f : UsageRow → UsageRow) : List UsageRow → List UsageRow
  | [] => []
  | r :: rs => (if usageKeyIs a e r then f r else r) :: updateUsageRows a e f rs

/-- Lookup of the usage row with key `(a, e)`. -/
def findUsageRow (a e : Int) : List UsageRow → Option UsageRow
  | [] => none
  | r :: rs => if usageKeyIs a e r then some r else findUsageRow a e rs

/-- `_increment_usage_window`: `INSERT ... VALUES (?, ?, 1, 0) ON
CONFLICT(agent_id, epoch) DO UPDATE SET windows = windows + 1`.  Note
that the conflict clause increments `windows` regardless of `billed`. -/
def increment_usage_window (a e : Int) (l : List UsageRow) : List UsageRow :=
  if l.any (usageKeyIs a e) then
    updateUsageRows a e (fun r => { r with windows := r.windows + 1 }) l
  else
    l ++ [⟨a, e, 1, false, none, none⟩]

/-- SQL `UPDATE agents SET ... WHERE id = ?`. -/
def updateAgentRows (aid : Int) (f : Agent → Agent) : List Agent → List Agent
  | [] => []
  | a :: rest => (if a.id == aid then f a else a) :: updateAgentRows aid f rest

/-- Lookup of an agent row by id (the `JOIN agents a ON a.id = ...`). -/
def findAgentById (aid : Int) : List Agent → Option Agent
  | [] => none
  | a :: rest => if a.id == aid then some a else findAgentById aid rest

/-- The `last_error` stored on a stream failure:
`f"{status_code}: {body[:300]}"`. -/
def mkFailLastError (status_code : Int) (body : PyStr) : PyStr :=
  (toString status_code).data ++ ": ".data ++ body.take 300

/-- Per-tick environment: the wall clock at tick start, the epoch-fetch
result (`none` for a fetch failure), and, for each agent id / usage
key, the stream response, jitter draw and billing subprocess result the
outside world would produce this tick. -/
structure TickInput where
  ts_ms : Int
  chain_epoch : Option Int
  response : Int → StreamResponse
  jitter_ms : Int → Int
  bill_returncode : Int → Int → Int
  bill_stdout : Int → Int → PyStr
  bill_stderr : Int → Int → PyStr

/-- The attempt row `_record_attempt` inserts for agent `a` and
response `resp` (body truncated to 4000 characters). -/
def mkAttemptRow (ts_ms : Int) (a : Agent) (resp : StreamResponse) : AttemptRow :=
  ⟨a.id, ts_ms, resp.ok, resp.status_code, classify_reason resp,
   extract_end_stream_ms resp.parsed, resp.body.take 4000⟩

/-- The per-agent body of the stream pass: record the attempt row, then
apply the outcome to the agent row and (on success, with a known epoch)
the usage window.  Returns the new state and the store operations
performed. -/
def stream_step (cfg : Config) (chain_epoch : Option Int) (ts_ms : Int)
    (resp : StreamResponse) (jdraw : Int) (st : SysState) (a : Agent) :
    SysState × List DbOp :=
  let st1 := { st with attempts := st.attempts ++ [mkAttemptRow ts_ms a resp] }
  match classify_outcome resp with
  | .armSuccess endv =>
    let fee := fee_for_success cfg.reward_per_window a.fee_bps
    let next := next_planned_attempt endv cfg.lead_seconds jdraw
    let st2 := { st1 with agents := updateAgentRows a.id (fun ag =>
      { ag with
        expected_end_ms := some endv
        next_attempt_ms := some next
        retry_step := 0
        success_count := ag.success_count + 1
        fee_due_claw := ag.fee_due_claw + fee
        last_success_ms := some ts_ms
        last_error := none
        updated_ms := ts_ms }) st1.agents }
    match chain_epoch with
    | some ep =>
      ({ st2 with usage_windows := increment_usage_window a.id ep st2.usage_windows },
       [.insertAttempt a.id, .updateAgent a.id, .upsertUsage a.id ep])
    | none => (st2, [.insertAttempt a.id, .updateAgent a.id])
  | .reSync endv =>
    let next := next_planned_attempt endv cfg.lead_seconds jdraw
    ({ st1 with agents := updateAgentRows a.id (fun ag =>
      { ag with
        expected_end_ms := some endv
        next_attempt_ms := some next
        retry_step := 0
        updated_ms := ts_ms }) st1.agents },
     [.insertAttempt a.id, .updateAgent a.id])
  | .backoff =>
    let rn := schedule_retry ts_ms a.retry_step
    ({ st1 with agents := updateAgentRows a.id (fun ag =>
      { ag with
        next_attempt_ms := some rn.1
        retry_step := rn.2
        failure_count := ag.failure_count + 1
        last_error := some (mkFailLastError resp.status_code resp.body)
        updated_ms := ts_ms }) st1.agents },
     [.insertAttempt a.id, .updateAgent a.id])

/-- Due-ness: `status = 'active' AND (next_attempt_ms IS NULL OR
next_attempt_ms <= now)`. -/
def is_due (ts_ms : Int) (a : Agent) : Bool :=
  a.status == "active" &&
    (match a.next_attempt_ms with
     | none => true
     | some n => decide (n ≤ ts_ms))

/-- `ORDER BY COALESCE(next_attempt_ms, 0) ASC`. -/
def due_key (a : Agent) : Int := a.next_attempt_ms.getD 0

/-- The due-agent query of `process_due_agents` (filter plus stable
ascending sort on the coalesced key). -/
def list_due_agents (ts_ms : Int) (agents : List Agent) : List Agent :=
  List.insertionSort (fun x y => due_key x ≤ due_key y) (agents.filter (is_due ts_ms))

/-- The stream pass: process every due agent in due order, then issue
the single `conn.commit()` of `process_due_agents`. -/
def process_due_agents (cfg : Config) (chain_epoch : Option Int) (tin : TickInput)
    (st : SysState) : SysState × List DbOp :=
  let due := list_due_agents tin.ts_ms st.agents
  let res := due.foldl
    (fun (acc : SysState × List DbOp) a =>
      let r := stream_step cfg chain_epoch tin.ts_ms (tin.response a.id) (tin.jitter_ms a.id) acc.1 a
      (r.1, acc.2 ++ r.2))
    (st, [])
  (res.1, res.2 ++ [.commit])

/-- One row of the billing-candidate query (the joined columns the loop
reads). -/
structure BillCandidate where
  agent_id : Int
  epoch : Int
  windows : Nat
  address : PyStr
deriving DecidableEq, Repr

/-- `a.status IN ('active', 'paused', 'suspended')`. -/
def billableStatus (s : String) : Bool :=
  s == "active" || s == "paused" || s == "suspended"

/-- The `ORDER BY uw.epoch ASC, uw.agent_id ASC` relation. -/
def candLe (x y : BillCandidate) : Prop :=
  x.epoch < y.epoch ∨ (x.epoch = y.epoch ∧ x.agent_id ≤ y.agent_id)

instance : DecidableRel candLe := fun x y => by
  unfold candLe; infer_instance

/-- The billing-candidate query of `bill_closed_epochs`: unbilled rows
of a closed epoch with pending windows whose owning agent is
billable, sorted by `(epoch, agent_id)`. -/
def list_billing_candidates (chain_epoch : Int) (st : SysState) : List BillCandidate :=
  List.insertionSort candLe
    (st.usage_windows.filterMap (fun u =>
      match findAgentById u.agent_id st.agents with
      | some ag =>
        if !u.billed && decide (u.epoch < chain_epoch) && decide (0 < u.windows)
            && billableStatus ag.status then
          some ⟨u.agent_id, u.epoch, u.windows, ag.address⟩
        else none
      | none => none))

/-- `(proc.stderr or proc.stdout or "billing failed")[:300]`. -/
def billErrText (stderr stdout : PyStr) : PyStr :=
  (if !stderr.isEmpty then stderr
   else if !stdout.isEmpty then stdout
   else "billing failed".data).take 300

/-- The per-candidate body of the billing pass: invoke the settlement
subprocess, append the billing-attempt row, then mark the usage row
billed or record the failure. -/
def bill_one (ts_ms : Int) (tin : TickInput) (st : SysState) (c : BillCandidate) :
    SysState × List DbOp :=
  let rc := tin.bill_returncode c.agent_id c.epoch
  let bout := tin.bill_stdout c.agent_id c.epoch
  let berr := tin.bill_stderr c.agent_id c.epoch
  let ok := rc == 0
  let row : BillingAttempt :=
    ⟨c.agent_id, c.epoch, c.windows, ts_ms, ok, rc, bout.take 4000, berr.take 4000⟩
  let st1 := { st with billing_attempts := st.billing_attempts ++ [row] }
  if ok then
    ({ st1 with usage_windows := updateUsageRows c.agent_id c.epoch (fun u =>
        { u with billed := true, billed_at_ms := some ts_ms,
                 last_error := none }) st1.usage_windows },
     [.billCall c.address c.epoch c.windows,
      .insertBillingAttempt c.agent_id c.epoch, .updateUsage c.agent_id c.epoch])
  else
    ({ st1 with usage_windows := updateUsageRows c.agent_id c.epoch (fun u =>
        { u with last_error := some (billErrText berr bout) }) st1.usage_windows },
     [.billCall c.address c.epoch c.windows,
      .insertBillingAttempt c.agent_id c.epoch, .updateUsage c.agent_id c.epoch])

/-- The billing pass of `bill_closed_epochs`: a no-op unless billing is
enabled and the epoch is known; otherwise bill every candidate in order
and commit once. -/
def bill_closed_epochs (cfg : Config) (chain_epoch : Option Int) (tin : TickInput)
    (st : SysState) : SysState × List DbOp :=
  match chain_epoch, cfg.billing_enabled with
  | some ep, true =>
    let cands := list_billing_candidates ep st
    let res := cands.foldl
      (fun (acc : SysState × List DbOp) c =>
        let r := bill_one tin.ts_ms tin acc.1 c
        (r.1, acc.2 ++ r.2))
      (st, [])
    (res.1, res.2 ++ [.commit])
  | _, _ => (st, [])

/-- `execute_tick`: the epoch is fetched only when billing is enabled
(a failed fetch leaves it `None`); then the stream pass, then the
billing pass. -/
def execute_tick (cfg : Config) (tin : TickInput) (st : SysState) : SysState :=
  let ce := if cfg.billing_enabled then tin.chain_epoch else none
  let s1 := (process_due_agents cfg ce tin st).1
  (bill_closed_epochs cfg ce tin s1).1

/-- The store operations of one tick, in order. -/
def tick_trace (cfg : Config) (tin : TickInput) (st : SysState) : List DbOp :=
  let ce := if cfg.billing_enabled then tin.chain_epoch else none
  let r1 := process_due_agents cfg ce tin st
  r1.2 ++ (bill_closed_epochs cfg ce tin r1.1).2

/-- A sequence of scheduler ticks. -/
def run_ticks (cfg : Config) (st : SysState) : List TickInput → SysState
  | [] => st
  | t :: ts => run_ticks cfg (execute_tick cfg t st) ts

/-- `str.strip()` (whitespace at both ends). -/
def pyStrip (s : PyStr) : PyStr :=
  ((s.dropWhile Char.isWhitespace).reverse.dropWhile Char.isWhitespace).reverse

/-- `_normalize_signature`: strip whitespace, then a leading `0x`. -/
def normalize_signature (sig : PyStr) : PyStr :=
  let s := pyStrip sig
  if s.take 2 = ['0', 'x'] then s.drop 2 else s

/-- `_validate_agent_address`: full match of `claw1[0-9a-z]+`. -/
def validate_agent_address (address : PyStr) : Bool :=
  match address with
  | 'c' :: 'l' :: 'a' :: 'w' :: '1' :: rest =>
    !rest.isEmpty && rest.all (fun c => c.isDigit || ('a' ≤ c && c ≤ 'z'))
  | _ => false

/-- A fresh surrogate id for an inserted agent row (autoincrement). -/
def nextAgentId (agents : List Agent) : Int :=
  (agents.map (fun a => a.id)).foldr max 0 + 1

/-- `enroll_agent`: insert, or on address conflict update signature,
fee, `status = 'active'` and `updated_ms`.  A fresh row starts with
`next_attempt_ms` set to the enrollment instant. -/
def enroll_agent (ts : Int) (address signature : PyStr) (fee_bps : Int)
    (agents : List Agent) : List Agent :=
  let addr := pyStrip address
  let sig := normalize_signature signature
  if agents.any (fun a => a.address == addr) then
    agents.map (fun a =>
      if a.address == addr then
        { a with stream_signature := sig, fee_bps := fee_bps,
                 status := "active", updated_ms := ts }
      else a)
  else
    agents ++ [⟨nextAgentId agents, addr, sig, fee_bps, "active",
               none, some ts, 0, 0, 0, 0, none, none, ts, ts⟩]

/-- The CLI `enroll` subcommand of `main`: it validates only the
`fee_bps` range before writing the agent row. -/
def cli_enroll (ts : Int) (st : SysState) (address signature : PyStr)
    (fee_bps : Int) : Except PyStr SysState :=
  if !(decide (0 ≤ fee_bps) && decide (fee_bps ≤ 10000)) then
    .error ("fee-bps must be between 0 and 10000".data)
  else
    .ok { st with agents := enroll_agent ts address signature fee_bps st.agents }

/-- The probe record `_enroll_via_api` reports back. -/
structure ProbeInfo where
  ok : Bool
  status_code : Int
  reason : String
  end_stream_ms : Option Int
  response_body : PyStr
deriving DecidableEq, Repr

/-- The probe-failure message
`f"Stream signature probe failed (status=...): {body[:220]}"`. -/
def probeFailMsg (status_code : Int) (body : PyStr) : PyStr :=
  "Stream signature probe failed (status=".data ++ (toString status_code).data
    ++ "): ".data ++ body.take 220

/-- `_enroll_via_api`: validation, optional stream probe, the upsert,
and the `expected_end_ms` pre-population when the probe carried a
truthy `end_stream_ms`.  The error branches of the source raise before
any store mutation. -/
def enroll_via_api (cfg : Config) (ts : Int) (st : SysState)
    (address signature : PyStr) (fee_bps : Int)
    (probe_resp : StreamResponse) (jdraw : Int) :
    Except PyStr (SysState × ProbeInfo) :=
  if !validate_agent_address address then
    .error ("Invalid Claws address".data)
  else if !(decide (0 ≤ fee_bps) && decide (fee_bps ≤ 10000)) then
    .error ("fee_bps must be between 0 and 10000".data)
  else if signature.isEmpty then
    .error ("Missing stream signature".data)
  else
    let probeRes : Except PyStr ProbeInfo :=
      if cfg.intake_probe_stream then
        let e := extract_end_stream_ms probe_resp.parsed
        let reason := classify_reason probe_resp
        if !probe_resp.ok && !(reason == "already_streaming" && pyTruthyInt e) then
          .error (probeFailMsg probe_resp.status_code probe_resp.body)
        else
          .ok ⟨probe_resp.ok, probe_resp.status_code, reason, e, probe_resp.body.take 500⟩
      else .ok ⟨true, 0, "skipped", none, []⟩
    match probeRes with
    | .error m => .error m
    | .ok probe =>
      let st1 := { st with agents := enroll_agent ts address signature fee_bps st.agents }
      if pyTruthyInt probe.end_stream_ms then
        let endv := probe.end_stream_ms.getD 0
        let na := next_planned_attempt endv cfg.lead_seconds jdraw
        .ok ({ st1 with agents := st1.agents.map (fun a =>
                if a.address == address then
                  { a with expected_end_ms := some endv, next_attempt_ms := some na,
                           retry_step := 0, last_error := none, updated_ms := ts }
                else a) },
             probe)
      else .ok (st1, probe)

/-- The back-off ladder as the spec states it:
`d(0)=30 s, d(1)=60 s, d(2)=120 s, d(k≥3)=180 s`. -/
def spec_backoff_delay : Nat → Int
  | 0 => 30
  | 1 => 60
  | 2 => 120
  | _ => 180

/-- A transport failure, as `_post_stream` reports one. -/
def failResponse : StreamResponse :=
  ⟨false, 0, "URLError: timeout".data, none⟩

/-- A configuration with billing disabled (lead 360 s, no jitter). -/
def cfgNoBilling : Config := ⟨360, 0, 1, false, true⟩

/-- A configuration with billing enabled. -/
def cfgBilling : Config := ⟨360, 0, 1, true, true⟩

/-- A freshly enrolled agent, id 1, never attempted. -/
def agentOne : Agent :=
  ⟨1, "claw1aaa".data, "sig".data, 500, "active",
   none, none, 0, 0, 0, 0, none, none, 0, 0⟩

/-- A second fresh agent, id 2. -/
def agentTwo : Agent :=
  ⟨2, "claw1bbb".data, "sig".data, 500, "active",
   none, none, 0, 0, 0, 0, none, none, 0, 0⟩

/-- A store holding just `agentOne`. -/
def stOne : SysState := ⟨[agentOne], [], [], []⟩

/-- A store holding `agentOne` and `agentTwo`. -/
def stTwo : SysState := ⟨[agentOne, agentTwo], [], [], []⟩

/-- A tick at time `t` whose every stream call fails in transport;
no epoch, billing subprocess succeeding vacuously. -/
def tickFail (t : Int) : TickInput :=
  ⟨t, none, fun _ => failResponse, fun _ => 0,
   fun _ _ => 0, fun _ _ => [], fun _ _ => []⟩

/-- A 2xx success carrying `end_stream = 2000000`. -/
def okResponse : StreamResponse :=
  ⟨true, 200, [], some [("end_stream", JVal.jint 2000000)]⟩

/-- A 2xx success whose extracted `end_stream_ms` is the integer 0. -/
def zeroEndResponse : StreamResponse :=
  ⟨true, 200, [], some [("can_stream_again_at", JVal.jint 0)]⟩

/-- A tick at time 1000, epoch 42, serving `zeroEndResponse`. -/
def tickZeroEnd : TickInput :=
  ⟨1000, some 42, fun _ => zeroEndResponse, fun _ => 0,
   fun _ _ => 0, fun _ _ => [], fun _ _ => []⟩

/-- A 500 response whose body is 301 characters long. -/
def bigBodyResponse : StreamResponse :=
  ⟨false, 500, List.replicate 301 'a', none⟩

/-- A tick at time 1000 serving `bigBodyResponse` to every agent. -/
def tickBigBody : TickInput :=
  ⟨1000, none, fun _ => bigBodyResponse, fun _ => 0,
   fun _ _ => 0, fun _ _ => [], fun _ _ => []⟩

/-- A tick at time `t` serving `okResponse` to every agent. -/
def tickOk (t : Int) : TickInput :=
  ⟨t, none, fun _ => okResponse, fun _ => 0,
   fun _ _ => 0, fun _ _ => [], fun _ _ => []⟩

/-- A 403 `already streaming` response that carries no
`end_stream`/`can_stream_again_at` field. -/
def alreadyNoEndResponse : StreamResponse :=
  ⟨false, 403, "already streaming".data, some [("note", JVal.jstr ['x'])]⟩

/-- A tick at time 1000 serving `alreadyNoEndResponse`. -/
def tickAlreadyNoEnd : TickInput :=
  ⟨1000, none, fun _ => alreadyNoEndResponse, fun _ => 0,
   fun _ _ => 0, fun _ _ => [], fun _ _ => []⟩

instance : IsTotal BillCandidate candLe :=
  ⟨by intro a b; unfold candLe; omega⟩

instance : IsTrans BillCandidate candLe :=
  ⟨by intro a b c hab hbc; unfold candLe at *; omega⟩

/-- The settlement invocations contained in an operation trace. -/
def extractBillCall : DbOp → Option (PyStr × Int × Nat)
  | .billCall addr ep w => some (addr, ep, w)
  | _ => none

/-- Scenario S5 data: unbilled usage `(agent 1, epoch 41) = 3` windows. -/
def usageRowA41 : UsageRow := ⟨1, 41, 3, false, none, none⟩

/-- Scenario S5 data: unbilled usage `(agent 1, epoch 42) = 2` windows. -/
def usageRowA42 : UsageRow := ⟨1, 42, 2, false, none, none⟩

/-- A store with one agent and the two S5 usage rows. -/
def stS5 : SysState := ⟨[agentOne], [], [usageRowA41, usageRowA42], []⟩

/-- A tick at time 5000, epoch 42, all settlement calls succeeding,
all stream calls failing in transport. -/
def tickBillOk : TickInput :=
  ⟨5000, some 42, fun _ => failResponse, fun _ => 0,
   fun _ _ => 0, fun _ _ => [], fun _ _ => []⟩

/-- Whether a logged attempt row is one that applied ArmSuccess: it was
recorded with `ok` and a truthy `end_stream_ms`. -/
def rowIsArmSuccess (row : AttemptRow) : Bool :=
  row.ok && pyTruthyInt row.end_stream_ms

/-- Whether a logged attempt row is one that applied Backoff: neither
an ArmSuccess row nor an `already_streaming` row with a truthy
`end_stream_ms`. -/
def rowIsBackoff (row : AttemptRow) : Bool :=
  !rowIsArmSuccess row &&
    !(row.reason == "already_streaming" && pyTruthyInt row.end_stream_ms)

/-- The chain epoch a tick effectively runs with: `execute_tick`
queries the oracle only when billing is enabled, so otherwise both
passes see `None`. -/
def effEpoch (cfg : Config) (t : TickInput) : Option Int :=
  if cfg.billing_enabled then t.chain_epoch else none

/-- The oracle's known epochs are non-decreasing along the tick list,
starting no lower than `floor` (ticks whose epoch fetch failed impose
nothing). -/
def epochsMono (cfg : Config) (floor : Int) : List TickInput → Bool
  | [] => true
  | t :: ts =>
    match effEpoch cfg t with
    | none => epochsMono cfg floor ts
    | some e => decide (floor ≤ e) && epochsMono cfg e ts

/-- Every billed usage row sits in an epoch strictly below `E`. -/
def BilledBelow (E : Int) (l : List UsageRow) : Prop :=
  ∀ u ∈ l, u.billed = true → u.epoch < E

/-- A usage row for epoch 41 that has already been billed. -/
def billedRow41 : UsageRow := ⟨1, 41, 3, true, some 900, none⟩

/-- A store with one agent and the billed epoch-41 row. -/
def stBilled : SysState := ⟨[agentOne], [], [billedRow41], []⟩

/-- A tick at time 2000, epoch 42, arming every agent successfully,
with settlement succeeding. -/
def tickArm42 : TickInput :=
  ⟨2000, some 42, fun _ => okResponse, fun _ => 0,
   fun _ _ => 0, fun _ _ => [], fun _ _ => []⟩

/-- Whether an admin operation succeeded (`Except.ok`). -/
def exceptOk {α : Type} : Except PyStr α → Bool
  | .ok _ => true
  | .error _ => false

/-- An empty store. -/
def stEmpty : SysState := ⟨[], [], [], []⟩

/-- A 2xx probe success carrying no `end_stream_ms`. -/
def probeOkNoEnd : StreamResponse := ⟨true, 200, "accepted".data, none⟩

/-- A 403 `already streaming` response carrying `end_stream = 5000`. -/
def alreadyWithEndResponse : StreamResponse :=
  ⟨false, 403, "already streaming".data, some [("end_stream", JVal.jint 5000)]⟩

/-- Between two store states: the attempt log was only appended to, and
every agent's counters advanced by exactly the number of its new log
rows that classify as ArmSuccess (success) resp. Backoff (failure). -/
def CountersTrack (s s' : SysState) : Prop :=
  (∃ d, s'.attempts = s.attempts ++ d) ∧
  ∀ aid ag, findAgentById aid s.agents = some ag →
    ∃ ag', findAgentById aid s'.agents = some ag' ∧
      ag'.success_count = ag.success_count +
        ((s'.attempts.drop s.attempts.length).filter
          (fun row => row.agent_id == aid && rowIsArmSuccess row)).length ∧
      ag'.failure_count = ag.failure_count +
        ((s'.attempts.drop s.attempts.length).filter
          (fun row => row.agent_id == aid && rowIsBackoff row)).length

end StreamAgency

namespace StreamAgency

/-- **C6 (counterexample).** The claim says an integer `end_stream` of 0
is extracted as 0, and that a non-integer `end_stream` with an integer
`can_stream_again_at` yields the latter.  In the code
`parsed.get("end_stream") or parsed.get("can_stream_again_at")` skips
*falsy* values, so `end_stream = 0` extracts as `null`; and a *truthy*
non-integer `end_stream` is selected and then dropped by the
`isinstance` check, also yielding `null`. -/
theorem extract_end_stream_zero_yields_none :
    extract_end_stream_ms (some [("end_stream", JVal.jint 0)]) = none ∧
    extract_end_stream_ms (some [("end_stream", JVal.jstr ['x']),
      ("can_stream_again_at", JVal.jint 7)]) = none := by
  constructor <;> rfl

/-- **C6 (amended).** `end_stream_ms` is extracted from the first
*truthy* field among `end_stream`, `can_stream_again_at`: a nonzero
integer `end_stream` is returned; a falsy `end_stream` defers to
`can_stream_again_at` (returned whenever it is an integer, including
0); a truthy non-integer `end_stream` masks `can_stream_again_at` and
yields `null`; a `null`/absent object yields `null`. -/
theorem extract_end_stream_first_truthy :
    (∀ (o : JObj) (n : Int), o.get "end_stream" = some (JVal.jint n) → n ≠ 0 →
        extract_end_stream_ms (some o) = some n) ∧
    (∀ (o : JObj) (m : Int), pyTruthyOpt (o.get "end_stream") = false →
        o.get "can_stream_again_at" = some (JVal.jint m) →
        extract_end_stream_ms (some o) = some m) ∧
    (∀ (o : JObj) (v : JVal), o.get "end_stream" = some v → v.truthy = true →
        v.isInt = false → extract_end_stream_ms (some o) = none) ∧
    extract_end_stream_ms none = none := by
  have hne : ∀ (o : JObj) (k : String) (v : JVal), o.get k = some v →
      o.isEmpty = false := by
    intro o k v h
    cases o with
    | nil => simp [JObj.get] at h
    | cons a l => rfl
  refine ⟨?_, ?_, ?_, rfl⟩
  · intro o n h hn
    have ho := hne o _ _ h
    simp only [extract_end_stream_ms, ho, Bool.false_eq_true, if_false,
      pyOrOpt, pyTruthyOpt, h, JVal.truthy]
    simp [bne_iff_ne, hn, JVal.isInt, JVal.toInt]
  · intro o m hfalse h
    have ho := hne o _ _ h
    simp only [extract_end_stream_ms, ho, Bool.false_eq_true, if_false,
      pyOrOpt, hfalse, Bool.false_eq_true, if_false, h]
    simp [JVal.isInt, JVal.toInt]
  · intro o v h htruthy hint
    have ho := hne o _ _ h
    simp only [extract_end_stream_ms, ho, Bool.false_eq_true, if_false,
      pyOrOpt, pyTruthyOpt, h, htruthy, if_true, hint]

/-- **C6 witness.** The amended characterization applied at concrete
objects: a nonzero `end_stream` is extracted, a falsy `end_stream`
defers to an integer `can_stream_again_at`, and a truthy non-integer
`end_stream` yields `null`. -/
theorem extract_end_stream_first_truthy_witness :
    extract_end_stream_ms (some [("end_stream", JVal.jint 2000000)]) = some 2000000 ∧
    extract_end_stream_ms (some [("end_stream", JVal.jint 0),
      ("can_stream_again_at", JVal.jint 5)]) = some 5 ∧
    extract_end_stream_ms (some [("end_stream", JVal.jstr ['y']),
      ("can_stream_again_at", JVal.jint 9)]) = none :=
  ⟨extract_end_stream_first_truthy.1 _ 2000000 rfl (by decide),
   extract_end_stream_first_truthy.2.1 _ 5 rfl rfl,
   extract_end_stream_first_truthy.2.2.1 _ (JVal.jstr ['y']) rfl rfl rfl⟩

/-- **C10 (confirmed).** `_schedule_retry` realizes the spec ladder
`d(0)=30 s, d(1)=60 s, d(2)=120 s, d(k≥3)=180 s` and always advances
the retry step by one; and scenario S3 — three transport failures at
t = 0 s, 30 s, 90 s from `retry_step = 0` — yields `next_attempt_ms`
offsets +30 s, +60 s, +120 s with `retry_step = 3` and
`failure_count = 3`. -/
theorem backoff_ladder :
    (∀ (ts_ms : Int) (k : Nat),
        schedule_retry ts_ms k = (ts_ms + spec_backoff_delay k * 1000, k + 1)) ∧
    ((findAgentById 1 (execute_tick cfgNoBilling (tickFail 0) stOne).agents).map
        (fun a => a.next_attempt_ms) = some (some 30000) ∧
     (findAgentById 1 (run_ticks cfgNoBilling stOne
        [tickFail 0, tickFail 30000]).agents).map
        (fun a => a.next_attempt_ms) = some (some 90000) ∧
     (findAgentById 1 (run_ticks cfgNoBilling stOne
        [tickFail 0, tickFail 30000, tickFail 90000]).agents).map
        (fun a => (a.next_attempt_ms, a.retry_step, a.failure_count)) =
        some (some 210000, 3, 3)) := by
  constructor
  · intro ts k
    match k with
    | 0 => rfl
    | 1 => rfl
    | 2 => rfl
    | (n + 3) =>
      simp only [schedule_retry, spec_backoff_delay, List.length_cons,
        List.length_nil]
      norm_num
  · refine ⟨by decide, by decide, by decide⟩

set_option maxRecDepth 4000 in
/-- **C7 (counterexample).** The `last_error` persisted on a stream
failure is `f"{status_code}: {body[:300]}"`: only the body is truncated
to 300 characters, so with a three-digit status the stored string
reaches 305 characters, exceeding the claimed 300-character bound. -/
theorem stream_last_error_exceeds_300 :
    (findAgentById 1 (execute_tick cfgNoBilling tickBigBody stOne).agents).map
        (fun a => a.last_error.map List.length) = some (some 305) ∧
    ¬ ((305 : Nat) ≤ 300) := by
  constructor <;> decide

/-- **C7 (amended).** Persisted response bodies and captured
stdout/stderr are truncated to 4000 characters; the usage-row
`last_error` written on a settlement failure is truncated to 300
characters; but the agent-row `last_error` written on a stream failure
is the status-code rendering plus `": "` plus the 300-truncated body,
so it is only bounded by the status-code length plus 302. -/
theorem truncation_bounds (cfg : Config) (ce : Option Int) (ts ts' : Int)
    (j : Int) (st : SysState) (a : Agent) (r : StreamResponse)
    (tin : TickInput) (c : BillCandidate) (berr bout body : PyStr)
    (sc : Int) :
    ((stream_step cfg ce ts r j st a).1.attempts = st.attempts ++
      [⟨a.id, ts, r.ok, r.status_code, classify_reason r,
        extract_end_stream_ms r.parsed, r.body.take 4000⟩]) ∧
    (r.body.take 4000).length ≤ 4000 ∧
    ((bill_one ts' tin st c).1.billing_attempts = st.billing_attempts ++
      [⟨c.agent_id, c.epoch, c.windows, ts',
        tin.bill_returncode c.agent_id c.epoch == 0,
        tin.bill_returncode c.agent_id c.epoch,
        (tin.bill_stdout c.agent_id c.epoch).take 4000,
        (tin.bill_stderr c.agent_id c.epoch).take 4000⟩]) ∧
    ((tin.bill_stdout c.agent_id c.epoch).take 4000).length ≤ 4000 ∧
    ((tin.bill_stderr c.agent_id c.epoch).take 4000).length ≤ 4000 ∧
    (billErrText berr bout).length ≤ 300 ∧
    ((bill_one ts' tin st c).1.usage_windows =
      if tin.bill_returncode c.agent_id c.epoch == 0 then
        updateUsageRows c.agent_id c.epoch (fun u =>
          { u with billed := true, billed_at_ms := some ts',
                   last_error := none }) st.usage_windows
      else
        updateUsageRows c.agent_id c.epoch (fun u =>
          { u with last_error := some (billErrText
              (tin.bill_stderr c.agent_id c.epoch)
              (tin.bill_stdout c.agent_id c.epoch)) }) st.usage_windows) ∧
    (mkFailLastError sc body).length ≤ (toString sc).length + 302 := by
  refine ⟨?_, ?_, ?_, ?_, ?_, ?_, ?_, ?_⟩
  · simp only [stream_step]
    split <;> first
      | (split <;> rfl)
      | rfl
  · simp [List.length_take]
  · simp only [bill_one]
    split <;> rfl
  · simp [List.length_take]
  · simp [List.length_take]
  · simp only [billErrText]
    simp [List.length_take]
  · simp only [bill_one]
    split <;> simp_all
  · have h1 : (toString sc).length = (toString sc).data.length := rfl
    have h2 : (": ".data).length = 2 := rfl
    simp only [mkFailLastError, List.length_append, List.length_take, h2, h1]
    omega

/-- No per-agent store operation of the stream pass is a commit. -/
theorem stream_step_no_commit (cfg : Config) (ce : Option Int) (ts j : Int)
    (r : StreamResponse) (st : SysState) (a : Agent) :
    DbOp.commit ∉ (stream_step cfg ce ts r j st a).2 := by
  simp only [stream_step]
  split
  · split <;> simp
  · simp
  · simp

/-- The stream-pass fold introduces no commit into the operation list. -/
theorem stream_fold_no_commit (cfg : Config) (ce : Option Int) (tin : TickInput)
    (L : List Agent) (s : SysState) (ops : List DbOp)
    (h : DbOp.commit ∉ ops) :
    DbOp.commit ∉ (L.foldl
      (fun (acc : SysState × List DbOp) a =>
        let r := stream_step cfg ce tin.ts_ms (tin.response a.id)
          (tin.jitter_ms a.id) acc.1 a
        (r.1, acc.2 ++ r.2))
      (s, ops)).2 := by
  induction L generalizing s ops with
  | nil => exact h
  | cons a L ih =>
    simp only [List.foldl]
    exact ih _ _ (by
      simp only [List.mem_append]
      rintro (hc | hc)
      · exact h hc
      · exact stream_step_no_commit cfg ce tin.ts_ms (tin.jitter_ms a.id)
          (tin.response a.id) s a hc)

/-- **C1 (amended).** The stream pass runs as a single transaction: the
operation trace of `process_due_agents` contains exactly one commit,
and it is the final operation, after *all* due agents' attempt rows,
agent updates and usage increments.  (The source commits once, at the
end of the pass — not after each agent.) -/
theorem stream_pass_single_commit (cfg : Config) (ce : Option Int)
    (tin : TickInput) (st : SysState) :
    (process_due_agents cfg ce tin st).2.count DbOp.commit = 1 ∧
    (process_due_agents cfg ce tin st).2.getLast? = some DbOp.commit := by
  have hno : DbOp.commit ∉ ((list_due_agents tin.ts_ms st.agents).foldl
      (fun (acc : SysState × List DbOp) a =>
        let r := stream_step cfg ce tin.ts_ms (tin.response a.id)
          (tin.jitter_ms a.id) acc.1 a
        (r.1, acc.2 ++ r.2))
      (st, [])).2 :=
    stream_fold_no_commit cfg ce tin _ st [] (by simp)
  constructor
  · simp only [process_due_agents, List.count_append]
    rw [List.count_eq_zero.mpr hno]
    rfl
  · simp only [process_due_agents]
    exact List.getLast?_concat _

/-- **C1 (counterexample).** With two due agents in one tick, the
operation trace interleaves no commit between the first agent's
mutations and the second agent's: the only commit comes after both.
This refutes the claim that each agent's transaction is committed
before the next agent is processed (so a crash mid-tick can lose *all*
of the tick's work, not just the current agent's). -/
theorem no_commit_between_agents :
    (process_due_agents cfgNoBilling none (tickFail 0) stTwo).2 =
      [DbOp.insertAttempt 1, DbOp.updateAgent 1,
       DbOp.insertAttempt 2, DbOp.updateAgent 2, DbOp.commit] ∧
    DbOp.commit ∉ (process_due_agents cfgNoBilling none (tickFail 0) stTwo).2.take 4 := by
  constructor <;> decide

/-- **C2 (counterexample).** An `ok = true` response whose extracted
`end_stream_ms` is the integer 0 is *not* classified as Success: the
Python truthiness test `if ok and end_stream_ms` sends it to the
Backoff branch, so the agent's `failure_count` — not `success_count` —
is incremented.  The claim requires such a response (an extracted
integer, "including `end_stream_ms = 0`") to be classified Success. -/
theorem zero_end_stream_is_backoff :
    extract_end_stream_ms zeroEndResponse.parsed = some 0 ∧
    zeroEndResponse.ok = true ∧
    classify_outcome zeroEndResponse = Outcome.backoff ∧
    (findAgentById 1 (execute_tick cfgBilling tickZeroEnd stOne).agents).map
      (fun a => (a.success_count, a.failure_count)) = some (0, 1) ∧
    (execute_tick cfgBilling tickZeroEnd stOne).usage_windows = [] := by
  refine ⟨rfl, rfl, rfl, by decide, by decide⟩

/-- **C2 (amended).** The outcome is Success exactly when `ok = true`
and the extracted `end_stream_ms` is a *nonzero* integer (Python
truthiness); an `ok = true` response whose `end_stream_ms` is absent
*or zero* drives Backoff.  On Success the agent row receives the
ArmSuccess update (expected end, planned next attempt, retry step 0,
incremented success count, accrued fee) and the usage window is
incremented exactly when the chain epoch is known. -/
theorem stream_success_iff_truthy_end (r : StreamResponse) (cfg : Config)
    (ce : Option Int) (ts j : Int) (st : SysState) (a : Agent) :
    ((classify_outcome r).isArmSuccess = true ↔
      r.ok = true ∧ pyTruthyInt (extract_end_stream_ms r.parsed) = true) ∧
    (∀ n : Int, classify_outcome r = Outcome.armSuccess n →
      extract_end_stream_ms r.parsed = some n ∧ n ≠ 0 ∧
      (stream_step cfg ce ts r j st a).1.agents = updateAgentRows a.id (fun ag =>
        { ag with
          expected_end_ms := some n
          next_attempt_ms := some (next_planned_attempt n cfg.lead_seconds j)
          retry_step := 0
          success_count := ag.success_count + 1
          fee_due_claw := ag.fee_due_claw +
            fee_for_success cfg.reward_per_window a.fee_bps
          last_success_ms := some ts
          last_error := none
          updated_ms := ts }) st.agents ∧
      (stream_step cfg ce ts r j st a).1.usage_windows =
        (match ce with
         | some ep => increment_usage_window a.id ep st.usage_windows
         | none => st.usage_windows)) := by
  have key : (classify_outcome r).isArmSuccess
      = (r.ok && pyTruthyInt (extract_end_stream_ms r.parsed)) := by
    simp only [classify_outcome]
    by_cases h : (r.ok && pyTruthyInt (extract_end_stream_ms r.parsed)) = true
    · rw [if_pos h, h]; rfl
    · rw [if_neg h]
      rw [Bool.not_eq_true] at h
      rw [h]
      split <;> rfl
  constructor
  · rw [key, Bool.and_eq_true]
  · intro n h
    have hb : (r.ok && pyTruthyInt (extract_end_stream_ms r.parsed)) = true := by
      by_contra hc
      rw [Bool.not_eq_true] at hc
      simp only [classify_outcome, hc, Bool.false_eq_true, if_false] at h
      split at h <;> simp at h
    have he : extract_end_stream_ms r.parsed = some n := by
      simp only [classify_outcome, hb, if_true] at h
      cases hx : extract_end_stream_ms r.parsed with
      | none =>
        rw [hx] at hb
        simp [pyTruthyInt] at hb
      | some m =>
        rw [hx] at h
        simpa using h
    have hn : n ≠ 0 := by
      rw [he] at hb
      simp only [pyTruthyInt, Bool.and_eq_true, bne_iff_ne] at hb
      exact hb.2
    refine ⟨he, hn, ?_, ?_⟩
    · simp only [stream_step, h]
      cases ce <;> simp [he]
    · simp only [stream_step, h]
      cases ce <;> rfl

/-- **C2 witness.** The amended theorem applied to the concrete
success response carrying `end_stream = 2000000`. -/
theorem stream_success_iff_truthy_end_witness :
    extract_end_stream_ms okResponse.parsed = some 2000000 ∧
    (2000000 : Int) ≠ 0 :=
  have h := (stream_success_iff_truthy_end okResponse cfgBilling (some 42)
    1000 0 stOne agentOne).2 2000000 rfl
  ⟨h.1, h.2.1⟩

/-- An arm-success classification forces the success condition. -/
theorem classify_eq_armSuccess {r : StreamResponse} {n : Int}
    (h : classify_outcome r = Outcome.armSuccess n) :
    (r.ok && pyTruthyInt (extract_end_stream_ms r.parsed)) = true := by
  by_contra hc
  rw [Bool.not_eq_true] at hc
  simp only [classify_outcome, hc, Bool.false_eq_true, if_false] at h
  split at h <;> simp at h

/-- A re-sync classification forces its branch conditions. -/
theorem classify_eq_reSync {r : StreamResponse} {n : Int}
    (h : classify_outcome r = Outcome.reSync n) :
    (r.ok && pyTruthyInt (extract_end_stream_ms r.parsed)) = false ∧
    (classify_reason r == "already_streaming"
      && pyTruthyInt (extract_end_stream_ms r.parsed)) = true := by
  have h1 : (r.ok && pyTruthyInt (extract_end_stream_ms r.parsed)) = false := by
    by_contra hc
    rw [Bool.not_eq_false] at hc
    simp only [classify_outcome, hc, if_true] at h
    exact Outcome.noConfusion h
  refine ⟨h1, ?_⟩
  by_contra hc
  rw [Bool.not_eq_true] at hc
  simp only [classify_outcome, h1, Bool.false_eq_true, if_false, hc] at h
  exact Outcome.noConfusion h

/-- A backoff classification forces the negation of both branch
conditions. -/
theorem classify_eq_backoff {r : StreamResponse}
    (h : classify_outcome r = Outcome.backoff) :
    (r.ok && pyTruthyInt (extract_end_stream_ms r.parsed)) = false ∧
    (classify_reason r == "already_streaming"
      && pyTruthyInt (extract_end_stream_ms r.parsed)) = false := by
  have h1 : (r.ok && pyTruthyInt (extract_end_stream_ms r.parsed)) = false := by
    by_contra hc
    rw [Bool.not_eq_false] at hc
    simp only [classify_outcome, hc, if_true] at h
    exact Outcome.noConfusion h
  refine ⟨h1, ?_⟩
  by_contra hc
  rw [Bool.not_eq_false] at hc
  simp only [classify_outcome, h1, Bool.false_eq_true, if_false, hc, if_true] at h
  exact Outcome.noConfusion h

/-- Agent lookup through an id-preserving `UPDATE ... WHERE id = ?`. -/
theorem findAgentById_updateAgentRows (aid bid : Int) (f : Agent → Agent)
    (hf : ∀ x, (f x).id = x.id) (l : List Agent) :
    findAgentById aid (updateAgentRows bid f l) =
      if aid = bid then (findAgentById aid l).map f
      else findAgentById aid l := by
  induction l with
  | nil => by_cases h : aid = bid <;> simp [updateAgentRows, findAgentById, h]
  | cons a l ih =>
    simp only [updateAgentRows, findAgentById]
    by_cases h1 : a.id = bid
    · by_cases h2 : aid = bid
      · have h3 : a.id = aid := by rw [h1, h2]
        simp [findAgentById, h1, h2, h3, hf, beq_iff_eq]
      · have h3 : ¬ (a.id = aid) := fun hx => h2 (hx.symm.trans h1)
        have h4 : ¬ (bid = aid) := fun hx => h2 hx.symm
        simp [findAgentById, h1, h2, h3, h4, hf, beq_iff_eq, ih]
    · by_cases h3 : a.id = aid
      · have h2 : ¬ (aid = bid) := fun hx => h1 (h3.trans hx)
        simp [findAgentById, h1, h2, h3, beq_iff_eq]
      · simp [findAgentById, h1, h3, beq_iff_eq, ih]

/-- The stream-pass body updates the agent table by an id-preserving
per-row function whose effect on the counters is decided by the
classification of the logged attempt row. -/
theorem stream_step_agents (cfg : Config) (ce : Option Int) (ts j : Int)
    (r : StreamResponse) (st : SysState) (a : Agent) :
    ∃ f : Agent → Agent, (∀ x, (f x).id = x.id) ∧
      (stream_step cfg ce ts r j st a).1.agents = updateAgentRows a.id f st.agents ∧
      (∀ x, (f x).success_count = x.success_count +
        (if rowIsArmSuccess (mkAttemptRow ts a r) = true then 1 else 0)) ∧
      (∀ x, (f x).failure_count = x.failure_count +
        (if rowIsBackoff (mkAttemptRow ts a r) = true then 1 else 0)) := by
  cases hoc : classify_outcome r with
  | armSuccess n =>
    have hrow : rowIsArmSuccess (mkAttemptRow ts a r) = true :=
      classify_eq_armSuccess hoc
    have hrow2 : rowIsBackoff (mkAttemptRow ts a r) = false := by
      simp [rowIsBackoff, hrow]
    refine ⟨fun ag =>
      { ag with
        expected_end_ms := some n
        next_attempt_ms := some (next_planned_attempt n cfg.lead_seconds j)
        retry_step := 0
        success_count := ag.success_count + 1
        fee_due_claw := ag.fee_due_claw +
          fee_for_success cfg.reward_per_window a.fee_bps
        last_success_ms := some ts
        last_error := none
        updated_ms := ts },
      fun x => rfl, ?_, fun x => by simp [hrow], fun x => by simp [hrow2]⟩
    simp only [stream_step, hoc]
    cases ce <;> rfl
  | reSync n =>
    obtain ⟨h1, h2⟩ := classify_eq_reSync hoc
    have hrow : rowIsArmSuccess (mkAttemptRow ts a r) = false := h1
    have hrow2 : rowIsBackoff (mkAttemptRow ts a r) = false := by
      show (!rowIsArmSuccess (mkAttemptRow ts a r)
        && !(classify_reason r == "already_streaming"
             && pyTruthyInt (extract_end_stream_ms r.parsed))) = false
      rw [h2]
      simp
    refine ⟨fun ag =>
      { ag with
        expected_end_ms := some n
        next_attempt_ms := some (next_planned_attempt n cfg.lead_seconds j)
        retry_step := 0
        updated_ms := ts },
      fun x => rfl, ?_, fun x => by simp [hrow], fun x => by simp [hrow2]⟩
    simp only [stream_step, hoc]
  | backoff =>
    obtain ⟨h1, h2⟩ := classify_eq_backoff hoc
    have hrow : rowIsArmSuccess (mkAttemptRow ts a r) = false := h1
    have hrow2 : rowIsBackoff (mkAttemptRow ts a r) = true := by
      show (!rowIsArmSuccess (mkAttemptRow ts a r)
        && !(classify_reason r == "already_streaming"
             && pyTruthyInt (extract_end_stream_ms r.parsed))) = true
      rw [h2]
      simp [hrow]
    refine ⟨fun ag =>
      { ag with
        next_attempt_ms := some (schedule_retry ts a.retry_step).1
        retry_step := (schedule_retry ts a.retry_step).2
        failure_count := ag.failure_count + 1
        last_error := some (mkFailLastError r.status_code r.body)
        updated_ms := ts },
      fun x => rfl, ?_, fun x => by simp [hrow], fun x => by simp [hrow2]⟩
    simp only [stream_step, hoc]

/-- The attempt log of a stream-pass body is the old log plus the new
row. -/
theorem stream_step_attempts (cfg : Config) (ce : Option Int) (ts j : Int)
    (r : StreamResponse) (st : SysState) (a : Agent) :
    (stream_step cfg ce ts r j st a).1.attempts =
      st.attempts ++ [mkAttemptRow ts a r] := by
  simp only [stream_step]
  split <;> first
    | (split <;> rfl)
    | rfl

/-- `CountersTrack` is reflexive. -/
theorem countersTrack_rfl (s : SysState) : CountersTrack s s := by
  refine ⟨⟨[], by simp⟩, ?_⟩
  intro aid ag h
  exact ⟨ag, h, by simp [List.drop_length], by simp [List.drop_length]⟩

/-- `CountersTrack` composes. -/
theorem countersTrack_trans {s₁ s₂ s₃ : SysState}
    (h12 : CountersTrack s₁ s₂) (h23 : CountersTrack s₂ s₃) :
    CountersTrack s₁ s₃ := by
  obtain ⟨⟨d1, hd1⟩, hag12⟩ := h12
  obtain ⟨⟨d2, hd2⟩, hag23⟩ := h23
  have e1 : s₂.attempts.drop s₁.attempts.length = d1 := by
    rw [hd1]; exact List.drop_left _ _
  have e2 : s₃.attempts.drop s₂.attempts.length = d2 := by
    rw [hd2]; exact List.drop_left _ _
  have e3 : s₃.attempts.drop s₁.attempts.length = d1 ++ d2 := by
    rw [hd2, hd1, List.append_assoc]; exact List.drop_left _ _
  refine ⟨⟨d1 ++ d2, by rw [hd2, hd1, List.append_assoc]⟩, ?_⟩
  intro aid ag h
  obtain ⟨ag', h', hs', hf'⟩ := hag12 aid ag h
  obtain ⟨ag'', h'', hs'', hf''⟩ := hag23 aid ag' h'
  refine ⟨ag'', h'', ?_, ?_⟩
  · rw [hs'', hs', e1, e2, e3, List.filter_append, List.length_append]
    omega
  · rw [hf'', hf', e1, e2, e3, List.filter_append, List.length_append]
    omega

/-- Two states with the same agents and attempt log track counters. -/
theorem countersTrack_of_eq {s s' : SysState}
    (hag : s'.agents = s.agents) (hat : s'.attempts = s.attempts) :
    CountersTrack s s' := by
  refine ⟨⟨[], by rw [hat]; simp⟩, ?_⟩
  intro aid ag h
  exact ⟨ag, by rw [hag]; exact h,
    by rw [hat]; simp [List.drop_length],
    by rw [hat]; simp [List.drop_length]⟩

/-- One stream-pass body tracks counters against the attempt log. -/
theorem stream_step_countersTrack (cfg : Config) (ce : Option Int) (ts j : Int)
    (r : StreamResponse) (st : SysState) (a : Agent) :
    CountersTrack st (stream_step cfg ce ts r j st a).1 := by
  have hatt := stream_step_attempts cfg ce ts j r st a
  obtain ⟨f, hfid, hag, hsucc, hfail⟩ := stream_step_agents cfg ce ts j r st a
  refine ⟨⟨[mkAttemptRow ts a r], hatt⟩, ?_⟩
  intro aid ag h
  rw [hag, findAgentById_updateAgentRows aid a.id f hfid]
  have hdrop : (stream_step cfg ce ts r j st a).1.attempts.drop st.attempts.length
      = [mkAttemptRow ts a r] := by
    rw [hatt]; exact List.drop_left _ _
  have hkey : (mkAttemptRow ts a r).agent_id = a.id := rfl
  by_cases hx : aid = a.id
  · rw [if_pos hx, h]
    refine ⟨f ag, rfl, ?_, ?_⟩
    · rw [hsucc, hdrop]
      rcases Bool.eq_false_or_eq_true (rowIsArmSuccess (mkAttemptRow ts a r)) with hb | hb <;>
        simp [List.filter, hb, hkey, hx, beq_iff_eq]
    · rw [hfail, hdrop]
      rcases Bool.eq_false_or_eq_true (rowIsBackoff (mkAttemptRow ts a r)) with hb | hb <;>
        simp [List.filter, hb, hkey, hx, beq_iff_eq]
  · rw [if_neg hx]
    have hne : ((mkAttemptRow ts a r).agent_id == aid) = false := by
      rw [hkey]
      exact beq_eq_false_iff_ne.mpr (fun hq => hx hq.symm)
    refine ⟨ag, h, ?_, ?_⟩
    · rw [hdrop]
      simp [List.filter, hne]
    · rw [hdrop]
      simp [List.filter, hne]

/-- The stream-pass fold tracks counters. -/
theorem stream_fold_countersTrack (cfg : Config) (ce : Option Int)
    (tin : TickInput) (L : List Agent) :
    ∀ (s : SysState) (ops : List DbOp),
      CountersTrack s ((L.foldl
        (fun (acc : SysState × List DbOp) a =>
          let r := stream_step cfg ce tin.ts_ms (tin.response a.id)
            (tin.jitter_ms a.id) acc.1 a
          (r.1, acc.2 ++ r.2))
        (s, ops)).1) := by
  induction L with
  | nil => intro s ops; exact countersTrack_rfl s
  | cons a L ih =>
    intro s ops
    simp only [List.foldl]
    exact countersTrack_trans
      (stream_step_countersTrack cfg ce tin.ts_ms (tin.jitter_ms a.id)
        (tin.response a.id) s a)
      (ih _ _)

/-- The billing body touches neither the agents nor the attempt log. -/
theorem bill_one_agents_attempts (ts' : Int) (tin : TickInput) (st : SysState)
    (c : BillCandidate) :
    (bill_one ts' tin st c).1.agents = st.agents ∧
    (bill_one ts' tin st c).1.attempts = st.attempts := by
  simp only [bill_one]
  split <;> exact ⟨rfl, rfl⟩

/-- The billing fold touches neither the agents nor the attempt log. -/
theorem bill_fold_agents_attempts (tin : TickInput) (cands : List BillCandidate) :
    ∀ (s : SysState) (ops : List DbOp),
      ((cands.foldl
        (fun (acc : SysState × List DbOp) c =>
          let r := bill_one tin.ts_ms tin acc.1 c
          (r.1, acc.2 ++ r.2))
        (s, ops)).1.agents = s.agents ∧
       (cands.foldl
        (fun (acc : SysState × List DbOp) c =>
          let r := bill_one tin.ts_ms tin acc.1 c
          (r.1, acc.2 ++ r.2))
        (s, ops)).1.attempts = s.attempts) := by
  induction cands with
  | nil => intro s ops; exact ⟨rfl, rfl⟩
  | cons c cands ih =>
    intro s ops
    simp only [List.foldl]
    obtain ⟨hag, hat⟩ := bill_one_agents_attempts tin.ts_ms tin s c
    obtain ⟨hag', hat'⟩ := ih (bill_one tin.ts_ms tin s c).1 (ops ++ (bill_one tin.ts_ms tin s c).2)
    exact ⟨hag'.trans hag, hat'.trans hat⟩

/-- The whole billing pass touches neither the agents nor the attempt
log. -/
theorem bill_closed_epochs_agents_attempts (cfg : Config) (ce : Option Int)
    (tin : TickInput) (st : SysState) :
    (bill_closed_epochs cfg ce tin st).1.agents = st.agents ∧
    (bill_closed_epochs cfg ce tin st).1.attempts = st.attempts := by
  cases ce with
  | none => exact ⟨rfl, rfl⟩
  | some ep =>
    cases hb : cfg.billing_enabled with
    | false => simp [bill_closed_epochs, hb]
    | true =>
      simp only [bill_closed_epochs, hb]
      exact bill_fold_agents_attempts tin (list_billing_candidates ep st) st []

/-- One tick tracks counters against the attempt log. -/
theorem execute_tick_countersTrack (cfg : Config) (tin : TickInput)
    (st : SysState) : CountersTrack st (execute_tick cfg tin st) := by
  have h1 : CountersTrack st
      (process_due_agents cfg (if cfg.billing_enabled then tin.chain_epoch else none) tin st).1 := by
    simp only [process_due_agents]
    exact stream_fold_countersTrack cfg _ tin _ st []
  have h2 := bill_closed_epochs_agents_attempts cfg
    (if cfg.billing_enabled then tin.chain_epoch else none) tin
    (process_due_agents cfg (if cfg.billing_enabled then tin.chain_epoch else none) tin st).1
  exact countersTrack_trans h1 (countersTrack_of_eq h2.1 h2.2)

/-- A run of ticks tracks counters against the attempt log. -/
theorem run_ticks_countersTrack (cfg : Config) (ticks : List TickInput) :
    ∀ st : SysState, CountersTrack st (run_ticks cfg st ticks) := by
  induction ticks with
  | nil => intro st; exact countersTrack_rfl st
  | cons t ts ih =>
    intro st
    exact countersTrack_trans (execute_tick_countersTrack cfg t st) (ih _)

/-- **C3 (amended).** After any number of ticks, an agent's
`success_count` advanced by exactly the number of its new attempt rows
recorded with `ok` and a truthy `end_stream_ms` (the ArmSuccess rows),
and its `failure_count` by exactly the number of its new rows that are
neither ArmSuccess rows nor `already_streaming` rows with a truthy
`end_stream_ms` — in particular an `already_streaming` row *without*
an `end_stream_ms` does contribute to `failure_count`. -/
theorem counters_match_attempt_log (cfg : Config) (ticks : List TickInput)
    (st₀ : SysState) (aid : Int) (ag₀ : Agent)
    (h₀ : findAgentById aid st₀.agents = some ag₀) :
    ∃ ag₁, findAgentById aid (run_ticks cfg st₀ ticks).agents = some ag₁ ∧
      ag₁.success_count = ag₀.success_count +
        (((run_ticks cfg st₀ ticks).attempts.drop st₀.attempts.length).filter
          (fun row => row.agent_id == aid && rowIsArmSuccess row)).length ∧
      ag₁.failure_count = ag₀.failure_count +
        (((run_ticks cfg st₀ ticks).attempts.drop st₀.attempts.length).filter
          (fun row => row.agent_id == aid && rowIsBackoff row)).length :=
  (run_ticks_countersTrack cfg ticks st₀).2 aid ag₀ h₀

/-- **C3 witness.** Two ticks against one agent — a transport failure,
then a success — leave `success_count = 1` and `failure_count = 1`. -/
theorem counters_match_attempt_log_witness :
    (findAgentById 1 (run_ticks cfgNoBilling stOne
        [tickFail 0, tickOk 100000]).agents).map
      (fun a => (a.success_count, a.failure_count)) = some (1, 1) := by
  obtain ⟨ag₁, h1, h2, h3⟩ := counters_match_attempt_log cfgNoBilling
    [tickFail 0, tickOk 100000] stOne 1 agentOne rfl
  rw [h1]
  show some (ag₁.success_count, ag₁.failure_count) = some (1, 1)
  rw [h2, h3]
  decide

/-- **C3 (counterexample).** A single `already_streaming` attempt
carrying no `end_stream_ms` is recorded with reason
`"already_streaming"` yet increments `failure_count` to 1 — while the
number of attempt rows *not* classified as `already_streaming` is 0.
This refutes the claim that such a row never contributes to
`failure_count`. -/
theorem already_streaming_without_end_counts_failure :
    ((execute_tick cfgNoBilling tickAlreadyNoEnd stOne).attempts.map
      (fun row => row.reason)) = ["already_streaming"] ∧
    (findAgentById 1 (execute_tick cfgNoBilling tickAlreadyNoEnd stOne).agents).map
      (fun a => a.failure_count) = some 1 ∧
    ((execute_tick cfgNoBilling tickAlreadyNoEnd stOne).attempts.filter
      (fun row => !(row.reason == "already_streaming"))).length = 0 := by
  refine ⟨by decide, by decide, by decide⟩

/-- Each billing body issues exactly one settlement call, for its
candidate. -/
theorem bill_one_billcall (ts' : Int) (tin : TickInput) (st : SysState)
    (c : BillCandidate) :
    (bill_one ts' tin st c).2.filterMap extractBillCall =
      [(c.address, c.epoch, c.windows)] := by
  simp only [bill_one]
  split <;> rfl

/-- The settlement calls of the billing fold are the candidates, in
order. -/
theorem bill_fold_billcalls (tin : TickInput) (cands : List BillCandidate) :
    ∀ (s : SysState) (ops : List DbOp),
      ((cands.foldl
        (fun (acc : SysState × List DbOp) c =>
          let r := bill_one tin.ts_ms tin acc.1 c
          (r.1, acc.2 ++ r.2))
        (s, ops)).2).filterMap extractBillCall =
      ops.filterMap extractBillCall ++
        cands.map (fun c => (c.address, c.epoch, c.windows)) := by
  induction cands with
  | nil => intro s ops; simp
  | cons c cands ih =>
    intro s ops
    simp only [List.foldl, List.map_cons]
    rw [ih]
    rw [List.filterMap_append, bill_one_billcall]
    simp

/-- Membership characterization of the billing-candidate query. -/
theorem mem_list_billing_candidates (E : Int) (st : SysState) :
    ∀ c, c ∈ list_billing_candidates E st ↔
      ∃ u ∈ st.usage_windows, ∃ ag,
        findAgentById u.agent_id st.agents = some ag ∧
        u.billed = false ∧ u.epoch < E ∧ 0 < u.windows ∧
        billableStatus ag.status = true ∧
        c = ⟨u.agent_id, u.epoch, u.windows, ag.address⟩ := by
    intro c
    rw [list_billing_candidates,
      (List.perm_insertionSort candLe _).mem_iff, List.mem_filterMap]
    constructor
    · rintro ⟨u, hu, hf⟩
      cases hag : findAgentById u.agent_id st.agents with
      | none => rw [hag] at hf; simp at hf
      | some ag =>
        rw [hag] at hf
        dsimp only at hf
        by_cases hcond : (!u.billed && decide (u.epoch < E)
            && decide (0 < u.windows) && billableStatus ag.status) = true
        · rw [if_pos hcond] at hf
          simp only [Bool.and_eq_true, Bool.not_eq_true',
            decide_eq_true_eq] at hcond
          obtain ⟨⟨⟨hb1, hb2⟩, hb3⟩, hb4⟩ := hcond
          exact ⟨u, hu, ag, hag, hb1, hb2, hb3, hb4, (Option.some.inj hf).symm⟩
        · rw [if_neg hcond] at hf
          simp at hf
    · rintro ⟨u, hu, ag, hag, hb1, hb2, hb3, hb4, hc⟩
      refine ⟨u, hu, ?_⟩
      rw [hag]
      dsimp only
      rw [if_pos ?_, hc]
      simp [hb1, hb2, hb3, hb4]

/-- Every billing candidate's epoch is strictly below the observed
chain epoch. -/
theorem candidate_epoch_lt {E : Int} {st : SysState} {c : BillCandidate}
    (hc : c ∈ list_billing_candidates E st) : c.epoch < E := by
  obtain ⟨u, _, ag, _, _, hlt, _, _, hcc⟩ :=
    (mem_list_billing_candidates E st c).mp hc
  rw [hcc]
  exact hlt

/-- **C5 (confirmed).** In a billing pass with a known chain epoch, the
candidate set is exactly the usage rows with `billed = false`,
`epoch < chain_epoch`, `windows > 0` and owning agent status in
`{active, paused, suspended}`; it is sorted ascending by
`(epoch, agent_id)`; every candidate's epoch is strictly below the
observed chain epoch; and the settlement calls issued by the pass are
exactly the candidates, in that order. -/
theorem billing_candidates_exact (cfg : Config) (E : Int) (tin : TickInput)
    (st : SysState) (hb : cfg.billing_enabled = true) :
    (∀ c, c ∈ list_billing_candidates E st ↔
      ∃ u ∈ st.usage_windows, ∃ ag,
        findAgentById u.agent_id st.agents = some ag ∧
        u.billed = false ∧ u.epoch < E ∧ 0 < u.windows ∧
        billableStatus ag.status = true ∧
        c = ⟨u.agent_id, u.epoch, u.windows, ag.address⟩) ∧
    List.Sorted candLe (list_billing_candidates E st) ∧
    (∀ c ∈ list_billing_candidates E st, c.epoch < E) ∧
    ((bill_closed_epochs cfg (some E) tin st).2.filterMap extractBillCall =
      (list_billing_candidates E st).map
        (fun c => (c.address, c.epoch, c.windows))) := by
  refine ⟨mem_list_billing_candidates E st,
    List.sorted_insertionSort candLe _,
    fun c hc => candidate_epoch_lt hc, ?_⟩
  simp only [bill_closed_epochs, hb]
  rw [List.filterMap_append, bill_fold_billcalls]
  simp [extractBillCall]

/-- **C5 witness.** In the S5 store at chain epoch 42, the pass issues
exactly the call for the closed epoch-41 row, and never one for
epoch 42. -/
theorem billing_candidates_exact_witness :
    (bill_closed_epochs cfgBilling (some 42) tickBillOk stS5).2.filterMap
        extractBillCall =
      (list_billing_candidates 42 stS5).map
        (fun c => (c.address, c.epoch, c.windows)) :=
  (billing_candidates_exact cfgBilling 42 tickBillOk stS5 rfl).2.2.2

/-- Key matching, componentwise. -/
theorem usageKeyIs_iff {a e : Int} {r : UsageRow} :
    usageKeyIs a e r = true ↔ r.agent_id = a ∧ r.epoch = e := by
  simp [usageKeyIs]

/-- A found usage row carries the searched key. -/
theorem findUsageRow_key {a e : Int} {l : List UsageRow} {u : UsageRow}
    (h : findUsageRow a e l = some u) : u.agent_id = a ∧ u.epoch = e := by
  induction l with
  | nil => simp [findUsageRow] at h
  | cons r l ih =>
    simp only [findUsageRow] at h
    by_cases hk : usageKeyIs a e r = true
    · rw [if_pos hk] at h
      cases h
      exact usageKeyIs_iff.mp hk
    · rw [if_neg hk] at h
      exact ih h

/-- A found usage row is a member of the table. -/
theorem findUsageRow_mem {a e : Int} {l : List UsageRow} {u : UsageRow}
    (h : findUsageRow a e l = some u) : u ∈ l := by
  induction l with
  | nil => simp [findUsageRow] at h
  | cons r l ih =>
    simp only [findUsageRow] at h
    by_cases hk : usageKeyIs a e r = true
    · rw [if_pos hk] at h
      cases h
      exact List.mem_cons_self _ _
    · rw [if_neg hk] at h
      exact List.mem_cons_of_mem r (ih h)

/-- Usage lookup through a key-preserving keyed `UPDATE`. -/
theorem findUsageRow_updateUsageRows (a e a' e' : Int) (f : UsageRow → UsageRow)
    (hf : ∀ r, (f r).agent_id = r.agent_id ∧ (f r).epoch = r.epoch)
    (l : List UsageRow) :
    findUsageRow a e (updateUsageRows a' e' f l) =
      if a = a' ∧ e = e' then (findUsageRow a e l).map f
      else findUsageRow a e l := by
  induction l with
  | nil => by_cases h2 : a = a' ∧ e = e' <;> simp [updateUsageRows, findUsageRow, h2]
  | cons r l ih =>
    have hkey_pres : usageKeyIs a e (f r) = usageKeyIs a e r := by
      simp [usageKeyIs, (hf r).1, (hf r).2]
    by_cases h2 : a = a' ∧ e = e'
    · obtain ⟨ha, he⟩ := h2
      subst ha he
      rw [if_pos ⟨rfl, rfl⟩]
      simp only [updateUsageRows, findUsageRow]
      by_cases hk : usageKeyIs a e r = true
      · rw [if_pos hk]
        simp [findUsageRow, hk, hkey_pres]
      · rw [if_neg hk]
        simp only [findUsageRow, hkey_pres, hk, Bool.false_eq_true, if_false]
        rw [ih, if_pos ⟨rfl, rfl⟩]
    · rw [if_neg h2]
      simp only [updateUsageRows, findUsageRow]
      by_cases h1 : usageKeyIs a' e' r = true
      · have hk : usageKeyIs a e r = false := by
          by_contra hc
          rw [Bool.not_eq_false] at hc
          rw [usageKeyIs_iff] at hc h1
          exact h2 ⟨hc.1.symm.trans h1.1, hc.2.symm.trans h1.2⟩
        rw [if_pos h1]
        simp only [findUsageRow, hkey_pres, hk, Bool.false_eq_true, if_false]
        rw [ih, if_neg h2]
      · rw [if_neg h1]
        by_cases hk : usageKeyIs a e r = true
        · rw [if_pos hk, if_pos hk]
        · rw [if_neg hk, if_neg hk, ih, if_neg h2]

/-- Usage lookup across an append. -/
theorem findUsageRow_append (a e : Int) (l₁ l₂ : List UsageRow) :
    findUsageRow a e (l₁ ++ l₂) =
      match findUsageRow a e l₁ with
      | some u => some u
      | none => findUsageRow a e l₂ := by
  induction l₁ with
  | nil => simp [findUsageRow]
  | cons r l ih =>
    simp only [List.cons_append, findUsageRow]
    by_cases h : usageKeyIs a e r = true <;> simp [h, ih]

/-- An increment at a different key leaves a usage lookup unchanged. -/
theorem findUsageRow_increment_ne (a e a' ep : Int) (l : List UsageRow)
    (hne : ¬(a = a' ∧ e = ep)) :
    findUsageRow a e (increment_usage_window a' ep l) = findUsageRow a e l := by
  unfold increment_usage_window
  by_cases hx : l.any (usageKeyIs a' ep) = true
  · rw [if_pos hx,
      findUsageRow_updateUsageRows a e a' ep
        (fun r => { r with windows := r.windows + 1 }) (fun r => ⟨rfl, rfl⟩) l,
      if_neg hne]
  · rw [if_neg hx, findUsageRow_append]
    cases hfl : findUsageRow a e l with
    | some u => rfl
    | none =>
      have hkf : usageKeyIs a e (⟨a', ep, 1, false, none, none⟩ : UsageRow) = false := by
        by_contra hc
        rw [Bool.not_eq_false, usageKeyIs_iff] at hc
        exact hne ⟨hc.1.symm, hc.2.symm⟩
      simp [findUsageRow, hkf]

/-- Members of a keyed `UPDATE` result come from the original table,
rewritten when they match the key. -/
theorem mem_updateUsageRows {u : UsageRow} {a e : Int} {f : UsageRow → UsageRow}
    {l : List UsageRow} (h : u ∈ updateUsageRows a e f l) :
    u ∈ l ∨ ∃ r, r ∈ l ∧ usageKeyIs a e r = true ∧ u = f r := by
  induction l with
  | nil => simp [updateUsageRows] at h
  | cons r l ih =>
    simp only [updateUsageRows, List.mem_cons] at h
    rcases h with h | h
    · by_cases hk : usageKeyIs a e r = true
      · rw [if_pos hk] at h
        exact Or.inr ⟨r, List.mem_cons_self r l, hk, h⟩
      · rw [if_neg hk] at h
        exact Or.inl (h ▸ List.mem_cons_self r l)
    · rcases ih h with h' | ⟨r', hr', hk', he'⟩
      · exact Or.inl (List.mem_cons_of_mem r h')
      · exact Or.inr ⟨r', List.mem_cons_of_mem r hr', hk', he'⟩

/-- Usage increments never push a billed row to or beyond the bound:
they preserve `billed` and `epoch`, and insert only unbilled rows. -/
theorem billedBelow_increment {E : Int} (a' ep : Int) {l : List UsageRow}
    (h : BilledBelow E l) : BilledBelow E (increment_usage_window a' ep l) := by
  intro u hu hb
  unfold increment_usage_window at hu
  by_cases hx : l.any (usageKeyIs a' ep) = true
  · rw [if_pos hx] at hu
    rcases mem_updateUsageRows hu with h' | ⟨r, hr, hk, he⟩
    · exact h u h' hb
    · subst he
      exact h r hr hb
  · rw [if_neg hx] at hu
    rcases List.mem_append.mp hu with h' | h'
    · exact h u h' hb
    · rw [List.mem_singleton] at h'
      subst h'
      simp at hb

/-- The usage table after a stream-pass body: unchanged, or incremented
at the tick's known epoch for the processed agent. -/
theorem stream_step_usage (cfg : Config) (ce : Option Int) (ts j : Int)
    (r : StreamResponse) (st : SysState) (a : Agent) :
    (stream_step cfg ce ts r j st a).1.usage_windows = st.usage_windows ∨
    ∃ ep, ce = some ep ∧
      (stream_step cfg ce ts r j st a).1.usage_windows =
        increment_usage_window a.id ep st.usage_windows := by
  cases hoc : classify_outcome r with
  | armSuccess n =>
    cases ce with
    | some ep =>
      right
      exact ⟨ep, rfl, by simp only [stream_step, hoc]⟩
    | none =>
      left
      simp only [stream_step, hoc]
  | reSync n =>
    left
    simp only [stream_step, hoc]
  | backoff =>
    left
    simp only [stream_step, hoc]

/-- Over a whole stream pass, a usage lookup at an epoch different from
the tick's known epoch is unchanged. -/
theorem stream_fold_usage_find (cfg : Config) (ce : Option Int)
    (tin : TickInput) (L : List Agent) (a e : Int)
    (hce : ∀ ep, ce = some ep → e ≠ ep) :
    ∀ (s : SysState) (ops : List DbOp),
      findUsageRow a e ((L.foldl
        (fun (acc : SysState × List DbOp) x =>
          let r := stream_step cfg ce tin.ts_ms (tin.response x.id)
            (tin.jitter_ms x.id) acc.1 x
          (r.1, acc.2 ++ r.2))
        (s, ops)).1.usage_windows) = findUsageRow a e s.usage_windows := by
  induction L with
  | nil => intro s ops; rfl
  | cons x L ih =>
    intro s ops
    simp only [List.foldl]
    rw [ih]
    rcases stream_step_usage cfg ce tin.ts_ms (tin.jitter_ms x.id)
        (tin.response x.id) s x with h | ⟨ep, hep, h⟩
    · rw [h]
    · rw [h, findUsageRow_increment_ne]
      exact fun hh => hce ep hep hh.2

/-- A whole stream pass keeps all billed rows below the bound. -/
theorem stream_fold_billedBelow (cfg : Config) (ce : Option Int)
    (tin : TickInput) (L : List Agent) (E : Int) :
    ∀ (s : SysState) (ops : List DbOp),
      BilledBelow E s.usage_windows →
      BilledBelow E ((L.foldl
        (fun (acc : SysState × List DbOp) x =>
          let r := stream_step cfg ce tin.ts_ms (tin.response x.id)
            (tin.jitter_ms x.id) acc.1 x
          (r.1, acc.2 ++ r.2))
        (s, ops)).1.usage_windows) := by
  induction L with
  | nil => intro s ops h; exact h
  | cons x L ih =>
    intro s ops h
    simp only [List.foldl]
    apply ih
    rcases stream_step_usage cfg ce tin.ts_ms (tin.jitter_ms x.id)
        (tin.response x.id) s x with hu | ⟨ep, _, hu⟩
    · rw [hu]; exact h
    · rw [hu]; exact billedBelow_increment x.id ep h

/-- The billing body never changes `billed` or `windows` of an already
billed row found at a key. -/
theorem bill_one_usage_billed (ts' : Int) (tin : TickInput) (st : SysState)
    (c : BillCandidate) (a e : Int) (w : Nat)
    (h : ∃ u, findUsageRow a e st.usage_windows = some u ∧
      u.billed = true ∧ u.windows = w) :
    ∃ u', findUsageRow a e (bill_one ts' tin st c).1.usage_windows = some u' ∧
      u'.billed = true ∧ u'.windows = w := by
  obtain ⟨u, hu, hb, hw⟩ := h
  simp only [bill_one]
  split
  · dsimp only
    rw [findUsageRow_updateUsageRows a e c.agent_id c.epoch
      (fun r =>
        { r with billed := true, billed_at_ms := some ts', last_error := none })
      (fun r => ⟨rfl, rfl⟩) _]
    by_cases h2 : a = c.agent_id ∧ e = c.epoch
    · rw [if_pos h2, hu]
      exact ⟨_, rfl, rfl, hw⟩
    · rw [if_neg h2]
      exact ⟨u, hu, hb, hw⟩
  · dsimp only
    rw [findUsageRow_updateUsageRows a e c.agent_id c.epoch
      (fun r => { r with last_error := some (billErrText
        (tin.bill_stderr c.agent_id c.epoch)
        (tin.bill_stdout c.agent_id c.epoch)) })
      (fun r => ⟨rfl, rfl⟩) _]
    by_cases h2 : a = c.agent_id ∧ e = c.epoch
    · rw [if_pos h2, hu]
      exact ⟨_, rfl, hb, hw⟩
    · rw [if_neg h2]
      exact ⟨u, hu, hb, hw⟩

/-- The billing fold never changes `billed` or `windows` of an already
billed row found at a key. -/
theorem bill_fold_usage_billed (tin : TickInput) (cands : List BillCandidate)
    (a e : Int) (w : Nat) :
    ∀ (s : SysState) (ops : List DbOp),
      (∃ u, findUsageRow a e s.usage_windows = some u ∧
        u.billed = true ∧ u.windows = w) →
      ∃ u', findUsageRow a e ((cands.foldl
        (fun (acc : SysState × List DbOp) c =>
          let r := bill_one tin.ts_ms tin acc.1 c
          (r.1, acc.2 ++ r.2))
        (s, ops)).1.usage_windows) = some u' ∧
        u'.billed = true ∧ u'.windows = w := by
  induction cands with
  | nil => intro s ops h; exact h
  | cons c cands ih =>
    intro s ops h
    simp only [List.foldl]
    exact ih _ _ (bill_one_usage_billed tin.ts_ms tin s c a e w h)

/-- The billing body keeps billed rows below the bound, provided its
candidate's epoch is below the bound. -/
theorem bill_one_billedBelow (ts' : Int) (tin : TickInput) (st : SysState)
    (c : BillCandidate) (E : Int) (hcE : c.epoch < E)
    (h : BilledBelow E st.usage_windows) :
    BilledBelow E (bill_one ts' tin st c).1.usage_windows := by
  intro u hu hb
  simp only [bill_one] at hu
  split at hu
  · rcases mem_updateUsageRows hu with h' | ⟨r, hr, hk, he⟩
    · exact h u h' hb
    · subst he
      show r.epoch < E
      rw [(usageKeyIs_iff.mp hk).2]
      exact hcE
  · rcases mem_updateUsageRows hu with h' | ⟨r, hr, hk, he⟩
    · exact h u h' hb
    · subst he
      exact h r hr hb

/-- The billing fold keeps billed rows below the bound, provided every
candidate's epoch is below it. -/
theorem bill_fold_billedBelow (tin : TickInput) (cands : List BillCandidate)
    (E : Int) (hc : ∀ c ∈ cands, c.epoch < E) :
    ∀ (s : SysState) (ops : List DbOp),
      BilledBelow E s.usage_windows →
      BilledBelow E ((cands.foldl
        (fun (acc : SysState × List DbOp) c =>
          let r := bill_one tin.ts_ms tin acc.1 c
          (r.1, acc.2 ++ r.2))
        (s, ops)).1.usage_windows) := by
  induction cands with
  | nil => intro s ops h; exact h
  | cons c cands ih =>
    intro s ops h
    simp only [List.foldl]
    exact ih (fun x hx => hc x (List.mem_cons_of_mem c hx)) _ _
      (bill_one_billedBelow tin.ts_ms tin s c E
        (hc c (List.mem_cons_self c cands)) h)

/-- The whole billing pass never changes `billed` or `windows` of an
already billed row found at a key. -/
theorem bill_closed_epochs_usage_billed (cfg : Config) (ce : Option Int)
    (tin : TickInput) (st : SysState) (a e : Int) (w : Nat)
    (h : ∃ u, findUsageRow a e st.usage_windows = some u ∧
      u.billed = true ∧ u.windows = w) :
    ∃ u', findUsageRow a e (bill_closed_epochs cfg ce tin st).1.usage_windows
      = some u' ∧ u'.billed = true ∧ u'.windows = w := by
  cases ce with
  | none => exact h
  | some E =>
    cases hb : cfg.billing_enabled with
    | false => simp only [bill_closed_epochs, hb]; exact h
    | true =>
      simp only [bill_closed_epochs, hb]
      exact bill_fold_usage_billed tin _ a e w st [] h

/-- The whole billing pass keeps billed rows below a bound at or above
the epoch it runs with. -/
theorem bill_closed_epochs_billedBelow (cfg : Config) (ce : Option Int)
    (tin : TickInput) (st : SysState) (E : Int)
    (hle : ∀ E', ce = some E' → E' ≤ E)
    (h : BilledBelow E st.usage_windows) :
    BilledBelow E (bill_closed_epochs cfg ce tin st).1.usage_windows := by
  cases ce with
  | none => exact h
  | some E' =>
    cases hb : cfg.billing_enabled with
    | false => simp only [bill_closed_epochs, hb]; exact h
    | true =>
      simp only [bill_closed_epochs, hb]
      exact bill_fold_billedBelow tin _ E
        (fun c hc => lt_of_lt_of_le (candidate_epoch_lt hc) (hle E' rfl))
        st [] h

/-- One tick never changes `billed` or `windows` of a billed row whose
epoch differs from the tick's known epoch. -/
theorem execute_tick_usage_billed (cfg : Config) (t : TickInput)
    (st : SysState) (a e : Int) (w : Nat)
    (hne : ∀ E, effEpoch cfg t = some E → e ≠ E)
    (hrow : ∃ u, findUsageRow a e st.usage_windows = some u ∧
      u.billed = true ∧ u.windows = w) :
    ∃ u', findUsageRow a e (execute_tick cfg t st).usage_windows = some u' ∧
      u'.billed = true ∧ u'.windows = w := by
  show ∃ u', findUsageRow a e (bill_closed_epochs cfg (effEpoch cfg t) t
    ((process_due_agents cfg (effEpoch cfg t) t st).1)).1.usage_windows
      = some u' ∧ u'.billed = true ∧ u'.windows = w
  apply bill_closed_epochs_usage_billed
  obtain ⟨u, hu, hb, hw⟩ := hrow
  refine ⟨u, ?_, hb, hw⟩
  show findUsageRow a e ((process_due_agents cfg (effEpoch cfg t) t st).1.usage_windows) = some u
  simp only [process_due_agents]
  rw [stream_fold_usage_find cfg (effEpoch cfg t) t _ a e hne st []]
  exact hu

/-- One tick keeps billed rows below a bound at or above its known
epoch. -/
theorem execute_tick_billedBelow (cfg : Config) (t : TickInput)
    (st : SysState) (E : Int)
    (hle : ∀ E', effEpoch cfg t = some E' → E' ≤ E)
    (hbb : BilledBelow E st.usage_windows) :
    BilledBelow E (execute_tick cfg t st).usage_windows := by
  show BilledBelow E (bill_closed_epochs cfg (effEpoch cfg t) t
    ((process_due_agents cfg (effEpoch cfg t) t st).1)).1.usage_windows
  apply bill_closed_epochs_billedBelow cfg (effEpoch cfg t) t _ E hle
  show BilledBelow E ((process_due_agents cfg (effEpoch cfg t) t st).1.usage_windows)
  simp only [process_due_agents]
  exact stream_fold_billedBelow cfg (effEpoch cfg t) t _ E st [] hbb

/-- **C4 (confirmed).** Once a usage row is billed it is terminal:
across any run of ticks whose known chain epochs are non-decreasing
(and start at or above a floor strictly above every already billed
epoch — as billing itself guarantees, since it only settles epochs
strictly below the epoch it observes), the row stays `billed = true`
and its `windows` count is never changed again, by any usage increment,
billing success, or billing failure. -/
theorem billed_usage_terminal (cfg : Config) (ticks : List TickInput) :
    ∀ (st : SysState) (floor a e : Int) (w : Nat),
      epochsMono cfg floor ticks = true →
      BilledBelow floor st.usage_windows →
      (∃ u, findUsageRow a e st.usage_windows = some u ∧
        u.billed = true ∧ u.windows = w) →
      ∃ u', findUsageRow a e (run_ticks cfg st ticks).usage_windows = some u' ∧
        u'.billed = true ∧ u'.windows = w := by
  induction ticks with
  | nil => intro st floor a e w _ _ h; exact h
  | cons t ts ih =>
    intro st floor a e w hmono hbb hrow
    have he : e < floor := by
      obtain ⟨u, hu, hb, _⟩ := hrow
      have := hbb u (findUsageRow_mem hu) hb
      rw [(findUsageRow_key hu).2] at this
      exact this
    show ∃ u', findUsageRow a e
      (run_ticks cfg (execute_tick cfg t st) ts).usage_windows = some u' ∧
      u'.billed = true ∧ u'.windows = w
    cases hce : effEpoch cfg t with
    | none =>
      simp only [epochsMono, hce] at hmono
      refine ih (execute_tick cfg t st) floor a e w hmono ?_ ?_
      · exact execute_tick_billedBelow cfg t st floor
          (fun E' hE' => absurd (hce.symm.trans hE') (by simp)) hbb
      · exact execute_tick_usage_billed cfg t st a e w
          (fun E' hE' => absurd (hce.symm.trans hE') (by simp)) hrow
    | some E =>
      simp only [epochsMono, hce, Bool.and_eq_true, decide_eq_true_eq] at hmono
      obtain ⟨hfE, hmono'⟩ := hmono
      have hbbE : BilledBelow E st.usage_windows :=
        fun u hu hb => lt_of_lt_of_le (hbb u hu hb) hfE
      refine ih (execute_tick cfg t st) E a e w hmono' ?_ ?_
      · exact execute_tick_billedBelow cfg t st E
          (fun E' hE' => le_of_eq (Option.some.inj (hce.symm.trans hE')).symm) hbbE
      · refine execute_tick_usage_billed cfg t st a e w ?_ hrow
        intro E' hE'
        have : E' = E := (Option.some.inj (hce.symm.trans hE')).symm
        rw [this]
        exact ne_of_lt (lt_of_lt_of_le he hfE)

/-- **C4 witness.** The billed epoch-41 row survives a tick at epoch 42
that both arms the agent (incrementing epoch 42's usage) and runs the
billing pass: it stays billed with its 3 windows intact. -/
theorem billed_usage_terminal_witness :
    ∃ u', findUsageRow 1 41
        (run_ticks cfgBilling stBilled [tickArm42]).usage_windows = some u' ∧
      u'.billed = true ∧ u'.windows = 3 :=
  billed_usage_terminal cfgBilling [tickArm42] stBilled 42 1 41 3
    (by decide)
    (by
      intro u hu hb
      have hu' : u ∈ [billedRow41] := hu
      rw [List.mem_singleton] at hu'
      subst hu'
      decide)
    ⟨billedRow41, rfl, rfl, rfl⟩

/-- **C8 (counterexample).** With the intake probe enabled, a 2xx probe
success carrying *no* `end_stream_ms` is accepted — the code rejects
only when `not ok and not (already_streaming and end_stream_ms)` — and
the agent row is written.  The claim requires this enrollment to be
rejected with no row written. -/
theorem probe_accepts_success_without_end :
    probeOkNoEnd.ok = true ∧
    extract_end_stream_ms probeOkNoEnd.parsed = none ∧
    exceptOk (enroll_via_api cfgBilling 1000 stEmpty ("claw1ccc".data)
      ("sig".data) 500 probeOkNoEnd 0) = true ∧
    (match enroll_via_api cfgBilling 1000 stEmpty ("claw1ccc".data)
        ("sig".data) 500 probeOkNoEnd 0 with
     | .ok (st', _) => st'.agents.map (fun a => a.address)
     | .error _ => []) = ["claw1ccc".data] := by
  refine ⟨rfl, rfl, by decide, by decide⟩

/-- **C8 (amended).** With the intake probe enabled and valid
enrollment inputs, enrollment succeeds *iff* the probe response has
`ok = true` (with or without an `end_stream_ms`), or is an
`already_streaming` response carrying a truthy `end_stream_ms`; every
other probe outcome is rejected. -/
theorem enroll_probe_accept_iff (cfg : Config) (ts : Int) (st : SysState)
    (address signature : PyStr) (fee_bps : Int) (r : StreamResponse) (j : Int)
    (hv : validate_agent_address address = true)
    (hf : 0 ≤ fee_bps ∧ fee_bps ≤ 10000)
    (hs : signature.isEmpty = false)
    (hp : cfg.intake_probe_stream = true) :
    exceptOk (enroll_via_api cfg ts st address signature fee_bps r j) = true ↔
      (r.ok = true ∨ (classify_reason r = "already_streaming" ∧
        pyTruthyInt (extract_end_stream_ms r.parsed) = true)) := by
  have hd1 : decide (0 ≤ fee_bps) = true := decide_eq_true hf.1
  have hd2 : decide (fee_bps ≤ 10000) = true := decide_eq_true hf.2
  simp only [enroll_via_api, hv, hd1, hd2, hs, hp, Bool.not_true,
    Bool.and_self, Bool.false_eq_true, if_false, if_true, Bool.not_false]
  by_cases hrej : (!r.ok && !(classify_reason r == "already_streaming"
      && pyTruthyInt (extract_end_stream_ms r.parsed))) = true
  · rw [if_pos hrej]
    simp only [Bool.and_eq_true, Bool.not_eq_true'] at hrej
    obtain ⟨hro, hx⟩ := hrej
    constructor
    · intro h
      exact absurd h (by simp [exceptOk])
    · rintro (h | ⟨h1, h2⟩)
      · rw [h] at hro
        exact absurd hro (by simp)
      · rw [show (classify_reason r == "already_streaming") = true from
          beq_iff_eq.mpr h1, h2] at hx
        exact absurd hx (by simp)
  · rw [if_neg hrej]
    rw [Bool.not_eq_true] at hrej
    constructor
    · intro _
      rcases Bool.eq_false_or_eq_true r.ok with hro | hro
      · exact Or.inl hro
      · right
        rw [hro] at hrej
        simp only [Bool.not_false, Bool.true_and, Bool.not_eq_false'] at hrej
        rw [Bool.and_eq_true, beq_iff_eq] at hrej
        exact ⟨hrej.1, hrej.2⟩
    · intro _
      dsimp only
      split <;> rfl

/-- **C8 witness.** The amended theorem at a concrete
`already_streaming`-with-end probe: enrollment is accepted. -/
theorem enroll_probe_accept_iff_witness :
    exceptOk (enroll_via_api cfgBilling 1000 stEmpty ("claw1ccc".data)
      ("sig".data) 500 alreadyWithEndResponse 0) = true :=
  (enroll_probe_accept_iff cfgBilling 1000 stEmpty ("claw1ccc".data)
      ("sig".data) 500 alreadyWithEndResponse 0
      (by decide) (by decide) (by decide) rfl).mpr
    (Or.inr ⟨by decide, by decide⟩)

/-- **C9 (counterexample).** The CLI `enroll` path validates only
`fee_bps`: a malformed address together with an *empty* signature is
accepted and the agent row is written to the store. -/
theorem cli_enroll_skips_validation :
    validate_agent_address ("bogus".data) = false ∧
    (List.nil : PyStr).isEmpty = true ∧
    (match cli_enroll 5 stEmpty ("bogus".data) [] 500 with
     | .ok st' => st'.agents.map (fun a => a.address)
     | .error _ => []) = ["bogus".data] := by
  refine ⟨by decide, rfl, by decide⟩

/-- **C9 (amended).** The API `/enroll` path rejects a malformed
address, an out-of-range `fee_bps`, and an empty signature before any
store mutation; the CLI `enroll` path checks *only* the `fee_bps`
range — it succeeds exactly when `fee_bps ∈ [0, 10000]`, accepting
malformed addresses and empty signatures. -/
theorem enrollment_validation (cfg : Config) (ts : Int) (st : SysState)
    (address signature : PyStr) (fee_bps : Int) (r : StreamResponse) (j : Int) :
    (validate_agent_address address = false →
      enroll_via_api cfg ts st address signature fee_bps r j =
        .error ("Invalid Claws address".data)) ∧
    (¬(0 ≤ fee_bps ∧ fee_bps ≤ 10000) →
      exceptOk (enroll_via_api cfg ts st address signature fee_bps r j) = false ∧
      exceptOk (cli_enroll ts st address signature fee_bps) = false) ∧
    (validate_agent_address address = true →
      (0 ≤ fee_bps ∧ fee_bps ≤ 10000) → signature.isEmpty = true →
      enroll_via_api cfg ts st address signature fee_bps r j =
        .error ("Missing stream signature".data)) ∧
    (exceptOk (cli_enroll ts st address signature fee_bps) = true ↔
      (0 ≤ fee_bps ∧ fee_bps ≤ 10000)) := by
  refine ⟨?_, ?_, ?_, ?_⟩
  · intro hv
    simp [enroll_via_api, hv]
  · intro hfee
    have hcond : (decide (0 ≤ fee_bps) && decide (fee_bps ≤ 10000)) = false := by
      rcases not_and_or.mp hfee with h | h
      · simp [decide_eq_false h]
      · simp [decide_eq_false h]
    constructor
    · by_cases hv : validate_agent_address address = true
      · simp [enroll_via_api, hv, hcond, exceptOk]
      · rw [Bool.not_eq_true] at hv
        simp [enroll_via_api, hv, exceptOk]
    · simp [cli_enroll, hcond, exceptOk]
  · intro hv hfe hsig
    have hd1 : decide (0 ≤ fee_bps) = true := decide_eq_true hfe.1
    have hd2 : decide (fee_bps ≤ 10000) = true := decide_eq_true hfe.2
    simp [enroll_via_api, hv, hd1, hd2, hsig]
  · constructor
    · intro h
      by_contra hfee
      have hcond : (decide (0 ≤ fee_bps) && decide (fee_bps ≤ 10000)) = false := by
        rcases not_and_or.mp hfee with hx | hx
        · simp [decide_eq_false hx]
        · simp [decide_eq_false hx]
      rw [show exceptOk (cli_enroll ts st address signature fee_bps) = false by
        simp [cli_enroll, hcond, exceptOk]] at h
      exact absurd h (by simp)
    · intro hfe
      have hd1 : decide (0 ≤ fee_bps) = true := decide_eq_true hfe.1
      have hd2 : decide (fee_bps ≤ 10000) = true := decide_eq_true hfe.2
      simp [cli_enroll, hd1, hd2, exceptOk]

/-- **C9 witness.** The validation facts at concrete inputs: the API
path rejects the malformed address `bogus`, while the CLI path accepts
any in-range fee and rejects `fee_bps = 20000`. -/
theorem enrollment_validation_witness :
    enroll_via_api cfgBilling 5 stEmpty ("bogus".data) ("sig".data) 500
        probeOkNoEnd 0 = .error ("Invalid Claws address".data) ∧
    exceptOk (cli_enroll 5 stEmpty ("claw1ccc".data) ("sig".data) 20000) = false ∧
    exceptOk (cli_enroll 5 stEmpty ("claw1ccc".data) ("sig".data) 500) = true :=
  ⟨(enrollment_validation cfgBilling 5 stEmpty ("bogus".data) ("sig".data) 500
      probeOkNoEnd 0).1 (by decide),
   ((enrollment_validation cfgBilling 5 stEmpty ("claw1ccc".data) ("sig".data)
      20000 probeOkNoEnd 0).2.1 (by decide)).2,
   (enrollment_validation cfgBilling 5 stEmpty ("claw1ccc".data) ("sig".data)
      500 probeOkNoEnd 0).2.2.2.mpr (by decide)⟩

end StreamAgency
